import Mathlib

set_option linter.unusedSectionVars false
set_option linter.unnecessarySimpa false

/-!
# Verification of the jsiqle record-collection core

A shallow embedding of the jsiqle in-memory record store
(`src/record/set.js`, `src/relationship.js`, together with the record-update
path of `src/model.js`), with theorems settling the frozen claims about it.

Records are insertion-ordered, uniquely-keyed JavaScript `Map`s, so the
embedding models a `Map` as an association list with JS `Map.prototype.set`
semantics (update-in-place keeps the original insertion position, fresh keys
append).  Callback-style arguments (matchers, comparators, predicates) are
embedded as Lean functions; a callback that JS would receive as the whole
record set receives the set's entry list, which is the membership a callback
can observe.
-/

namespace Jsiqle

/-- JS error values thrown by the core: `TypeError`, plus the custom
`NameError` / `DuplicationError` classes of `src/errors`, plus `RangeError`
and `ReferenceError` used by relationship/model code. -/
inductive JsError where
  | typeError (msg : String)
  | duplicationError (msg : String)
  | nameError (msg : String)
  | rangeError (msg : String)
  | referenceError (msg : String)
  deriving DecidableEq, Repr

/-! ## JS `Map` semantics over association lists -/

variable {κ α β : Type} [DecidableEq κ]

/-- The keys of an entry list, in insertion order. -/
def entryKeys (l : List (κ × α)) : List κ := l.map Prod.fst

/-- JS `Map.prototype.has`. -/
def mapHas (l : List (κ × α)) (k : κ) : Bool := l.any (fun e => e.1 = k)

/-- JS `Map.prototype.get` (`undefined` on a missing key becomes `none`). -/
def mapGet (l : List (κ × α)) (k : κ) : Option α :=
  (l.find? (fun e => e.1 = k)).map Prod.snd

/-- JS `Map.prototype.set`: when the key is already present its value is replaced
in place (the original insertion position is kept); otherwise the new entry is
appended at the end. -/
def mapSet (l : List (κ × α)) (k : κ) (v : α) : List (κ × α) :=
  if mapHas l k then l.map (fun e => if e.1 = k then (k, v) else e)
  else l ++ [(k, v)]

/-- JS `Map.prototype.delete` (the boolean result is not used by the core). -/
def mapDelete (l : List (κ × α)) (k : κ) : List (κ × α) :=
  l.filter (fun e => decide (e.1 ≠ k))

/-- JS `new Map(iterable)`: every entry of the iterable is inserted via `set`. -/
def mapFromList (l : List (κ × α)) : List (κ × α) :=
  l.foldl (fun m e => mapSet m e.1 e.2) []

/-! ## The RecordSet data model -/

/-- A scope matcher callback `(value, id, recordSet) => truthy`; the third
argument is embedded as the record set's entry list. -/
def Matcher (κ α : Type) : Type := α → κ → List (κ × α) → Bool

/-- A comparator callback `(value1, value2, id1, id2) => number` with the JS
sign conventions, embedded over `Int`. -/
def Comparator (κ α : Type) : Type := α → α → κ → κ → Int

/-- A registered scope: the `[scope, sortFn]` pair stored in the `#scopes`
map.  An omitted (or falsy, hence never-called) comparator is `none`. -/
def ScopeVal (κ α : Type) : Type := Matcher κ α × Option (Comparator κ α)

/-- The observable state of a `RecordSet` (src/record/set.js): the underlying
insertion-ordered `Map` entries and the private `#scopes` table. -/
structure RecordSet (κ α : Type) where
  entries : List (κ × α)
  scopes : List (String × ScopeVal κ α)

/-- The representation invariant every reachable RecordSet satisfies: unique
record keys (JS `Map`) and unique scope names (JS `Map`). -/
def RecordSet.WF (s : RecordSet κ α) : Prop :=
  (entryKeys s.entries).Nodup ∧ (s.scopes.map Prod.fst).Nodup

/-- Constructor `new RecordSet({ iterable = [], copyScopesFrom = null })`: each iterable
entry is inserted through the internal `[$set]`, then scopes are copied from
the origin set (`#copyScopes`). -/
def RecordSet.make (iterable : List (κ × α))
    (copyScopesFrom : Option (RecordSet κ α)) : RecordSet κ α where
  entries := mapFromList iterable
  scopes :=
    match copyScopesFrom with
    | some origin => origin.scopes
    | none => []

/-- The protected `[$set]` entry point (line 552): plain `Map` insertion. -/
def RecordSet.internalSet (s : RecordSet κ α) (id : κ) (v : α) :
    RecordSet κ α :=
  { s with entries := mapSet s.entries id v }

/-- The protected `[$delete]` entry point (line 557): plain `Map` removal. -/
def RecordSet.internalDelete (s : RecordSet κ α) (id : κ) : RecordSet κ α :=
  { s with entries := mapDelete s.entries id }

/-- The public `set` (line 30): unconditionally throws before touching any
state. -/
def RecordSet.publicSet (_s : RecordSet κ α) (_id : κ) (_value : α) :
    Except JsError (RecordSet κ α) :=
  Except.error (JsError.typeError
    "You cannot directly modify a RecordSet. Please use `Model.prototype.createRecord()` instead.")

/-- The public `delete` (line 36): unconditionally throws before touching any
state. -/
def RecordSet.publicDelete (_s : RecordSet κ α) (_id : κ) :
    Except JsError (RecordSet κ α) :=
  Except.error (JsError.typeError
    "You cannot directly modify a RecordSet. Please use `Model.prototype.deleteRecord()` instead.")

/-- The public `clear` (line 42): unconditionally throws before touching any
state. -/
def RecordSet.publicClear (_s : RecordSet κ α) :
    Except JsError (RecordSet κ α) :=
  Except.error (JsError.typeError
    "You cannot directly modify a RecordSet Please use `Model.prototype.deleteRecord()` instead.")

/-- Method `filter(callbackFn)` in the default (non-flat) branch (line 113): a reduce
over the entries inserting each passing entry, via `[$set]`, into a fresh
`new RecordSet({ copyScopesFrom: this })`. -/
def RecordSet.filterRS (s : RecordSet κ α) (f : Matcher κ α) : RecordSet κ α :=
  s.entries.foldl
    (fun acc e => if f e.2 e.1 s.entries then acc.internalSet e.1 e.2 else acc)
    (RecordSet.make [] (some s))

/-- The order JS `Array.prototype.sort` realises for a comparator: `a` may
stay before `b` exactly when `comparator(a, b) <= 0`. -/
def jsSortLE (cmp : Comparator κ α) : (κ × α) → (κ × α) → Bool :=
  fun e1 e2 => decide (cmp e1.2 e2.2 e1.1 e2.1 ≤ 0)

/-- Method `sort(comparatorFn)` (line 199): the entries are sorted with the stable
JS array sort (embedded as `List.mergeSort`) and a new RecordSet is built from
the sorted entries, copying this set's scopes. -/
def RecordSet.sortRS (s : RecordSet κ α) (cmp : Comparator κ α) :
    RecordSet κ α :=
  RecordSet.make (s.entries.mergeSort (jsSortLE cmp)) (some s)

/-- Method `duplicate()` (line 302): a new RecordSet over the same entries, copying
this set's scopes. -/
def RecordSet.duplicate (s : RecordSet κ α) : RecordSet κ α :=
  RecordSet.make s.entries (some s)

/-- The inner collision-checking loop of `merge` (lines 317-325) over one
argument set's entries. -/
def mergeEntries [ToString κ] :
    List (κ × α) → List (κ × α) → Except JsError (List (κ × α))
  | res, [] => Except.ok res
  | res, (id, v) :: rest =>
    if mapHas res id then
      Except.error (JsError.duplicationError
        ("Id " ++ toString id ++ " already exists in the record set."))
    else mergeEntries (mapSet res id v) rest

/-- Method `merge(...recordSets)` (line 315): start from `new Map([...this.entries()])`,
insert every entry of every argument set rejecting key collisions, and wrap
the result in a new RecordSet copying this set's scopes. -/
def RecordSet.merge [ToString κ] (s : RecordSet κ α)
    (sets : List (RecordSet κ α)) : Except JsError (RecordSet κ α) := do
  let res ← sets.foldlM (fun res t => mergeEntries res t.entries)
    (mapFromList s.entries)
  Except.ok (RecordSet.make res (some s))

/-- Method `append(...records)` (line 338): a copy of this set into which each given
record is inserted, via `[$set]`, under its own `record.id` (embedded as the
supplied id projection). -/
def RecordSet.append (s : RecordSet κ α) (getId : α → κ) (records : List α) :
    RecordSet κ α :=
  records.foldl (fun res r => res.internalSet (getId r) r)
    (RecordSet.make s.entries (some s))

/-- Method `only(...ids)` (line 162): keeps the entries whose ids appear in the
argument list, in the order of the argument list. -/
def RecordSet.onlyRS (s : RecordSet κ α) (ids : List κ) : RecordSet κ α :=
  RecordSet.make
    (ids.foldl
      (fun itr id =>
        match mapGet s.entries id with
        | some v => itr ++ [(id, v)]
        | none => itr)
      [])
    (some s)

/-- Method `except(...ids)` (line 179): drops the entries whose ids appear in the
argument list. -/
def RecordSet.exceptRS (s : RecordSet κ α) (ids : List κ) : RecordSet κ α :=
  RecordSet.make (s.entries.filter (fun e => !(ids.contains e.1))) (some s)

/-- ECMAScript `Array.prototype.slice` index resolution: a negative index
counts from the end, then the index is clamped into `[0, length]`. -/
def jsSliceIndex (len : Nat) (i : Int) : Nat :=
  if i < 0 then (max ((len : Int) + i) 0).toNat else min i.toNat len

/-- Method `slice(start, end)` (line 445): `Array.prototype.slice` on the entries,
wrapped in a new RecordSet copying this set's scopes. -/
def RecordSet.sliceRS (s : RecordSet κ α) (start stop : Int) : RecordSet κ α :=
  RecordSet.make
    (((s.entries.drop (jsSliceIndex s.entries.length start)).take
      (jsSliceIndex s.entries.length stop - jsSliceIndex s.entries.length start)))
    (some s)

/-- The collection loop of `limit(n)` (lines 408-412): push each entry, then
stop as soon as the collected length strictly equals `n`. -/
def limitLoop (n : Int) : List (κ × α) → List (κ × α) → List (κ × α)
  | [], records => records
  | e :: rest, records =>
    let records := records ++ [e]
    if (records.length : Int) = n then records else limitLoop n rest records

/-- Method `limit(n)` (line 407). -/
def RecordSet.limit (s : RecordSet κ α) (n : Int) : RecordSet κ α :=
  RecordSet.make (limitLoop n s.entries []) (some s)

/-- The collection loop of `offset(n)` (lines 425-430): skip while the counter
is below `n`, pushing afterwards. -/
def offsetLoop (n : Int) : List (κ × α) → Nat → List (κ × α) → List (κ × α)
  | [], _, records => records
  | e :: rest, counter, records =>
    if (counter : Int) < n then offsetLoop n rest (counter + 1) records
    else offsetLoop n rest counter (records ++ [e])

/-- Method `offset(n)` (line 424). -/
def RecordSet.offset (s : RecordSet κ α) (n : Int) : RecordSet κ α :=
  RecordSet.make (offsetLoop n s.entries 0 []) (some s)

/-- The batch-accumulation loop of `batchIterator` (lines 386-399): push each
entry into the current batch, emit the batch when its length reaches
`batchSize`, and emit any non-empty leftover batch at the end. -/
def batchLoop (batchSize : Int) :
    List (κ × α) → List (κ × α) → List (List (κ × α))
  | [], batch => if batch.length ≠ 0 then [batch] else []
  | e :: rest, batch =>
    let batch := batch ++ [e]
    if (batch.length : Int) = batchSize then batch :: batchLoop batchSize rest []
    else batchLoop batchSize rest batch

/-- Method `batchIterator(batchSize)` in the default (non-flat) branch: each emitted
batch is wrapped in a new RecordSet copying this set's scopes.  The generator
is lazy in JS; its finite list of yielded values is embedded. -/
def RecordSet.batchIterator (s : RecordSet κ α) (batchSize : Int) :
    List (RecordSet κ α) :=
  (batchLoop batchSize s.entries []).map
    (fun batch => RecordSet.make batch (some s))

/-! ## The scope registry -/

/-- Private `#scopedWhere(scopeName)` (line 604): look the scope up in `#scopes`,
collect the entries accepted by the matcher, sort them when a comparator is
present, and wrap the result in a new RecordSet copying this set's scopes.
An unregistered name gives `none` (JS would throw destructuring `undefined`;
the accessor only ever calls this with a registered name). -/
def RecordSet.scopedWhere (s : RecordSet κ α) (scopeName : String) :
    Option (RecordSet κ α) :=
  match mapGet s.scopes scopeName with
  | none => none
  | some (matcherFn, comparatorFn) =>
    let matchList := s.entries.filter (fun e => matcherFn e.2 e.1 s.entries)
    let sorted :=
      match comparatorFn with
      | some cmp => matchList.mergeSort (jsSortLE cmp)
      | none => matchList
    some (RecordSet.make sorted (some s))

/-- The string-keyed own property names of `RecordSet.prototype`
(the methods and getters of the class body; symbol-keyed members are not
returned by `Object.getOwnPropertyNames`). -/
def recordSetPrototypeNames : List String :=
  ["constructor", "set", "delete", "clear", "map", "reduce", "filter",
   "find", "findId", "only", "except", "sort", "every", "some", "select",
   "pluck", "groupBy", "duplicate", "merge", "append", "where", "whereNot",
   "batchIterator", "limit", "offset", "slice", "first", "last", "count",
   "length", "ids", "toArray", "toObject", "toJSON"]

/-- String-keyed members a RecordSet instance inherits from `Map.prototype`
and `Object.prototype` whose value is always truthy (methods, and the
`__proto__` accessor which yields an object). -/
def inheritedTruthyMembers : List String :=
  ["get", "has", "forEach", "entries", "keys", "values",
   "toString", "toLocaleString", "valueOf", "hasOwnProperty",
   "isPrototypeOf", "propertyIsEnumerable", "constructor",
   "__proto__", "__defineGetter__", "__defineSetter__",
   "__lookupGetter__", "__lookupSetter__"]

/-- Truthiness of `this[name]` for names outside `RecordSet.prototype`:
always-truthy inherited members, Map's `size` getter (a number, truthy iff
the set is non-empty), and the dynamically defined scope accessors (each
returns a RecordSet object, which is truthy).  Names on `RecordSet.prototype`
itself need no truthiness analysis because `[$addScope]` also checks
`Object.getOwnPropertyNames(RecordSet.prototype)` directly. -/
def RecordSet.memberTruthy (s : RecordSet κ α) (name : String) : Bool :=
  inheritedTruthyMembers.contains name
    || (name == "size" && s.entries.length != 0)
    || (mapGet s.scopes name).isSome

/-- The name check on line 565: `this[name] ||
Object.getOwnPropertyNames(RecordSet.prototype).includes(name)`. -/
def RecordSet.builtinNameConflict (s : RecordSet κ α) (name : String) : Bool :=
  s.memberTruthy name || recordSetPrototypeNames.contains name

/-- A JS argument position expecting a function: either an actual callable or
some (truthy) non-callable value, i.e. `typeof x !== 'function'`.  (A falsy
non-callable comparator skips both the validation and the later sort, so it
is embedded as an omitted comparator.) -/
inductive JsArg (F : Type) where
  | fn (f : F)
  | notAFunction

/-- Protected `[$addScope](name, scope, sortFn)` (line 562): `#validateProperty` checks
the matcher is a function and the name is not an already-registered scope;
`#validateFunction` checks a provided comparator is a function; the name must
not be a truthy member or a `RecordSet.prototype` own property; then the pair
is stored in `#scopes` (the accessor definition has no further observable
state). -/
def RecordSet.addScope (s : RecordSet κ α) (name : String)
    (scope : JsArg (Matcher κ α)) (sortFn : Option (JsArg (Comparator κ α))) :
    Except JsError (RecordSet κ α) :=
  match scope with
  | JsArg.notAFunction =>
    Except.error (JsError.typeError ("Scope " ++ name ++ " is not a function."))
  | JsArg.fn matcherFn =>
    if (mapGet s.scopes name).isSome then
      Except.error (JsError.duplicationError
        ("Scope " ++ name ++ " already exists."))
    else
      match sortFn with
      | some JsArg.notAFunction =>
        Except.error (JsError.typeError
          ("Scope comparator " ++ name ++ " is not a function."))
      | some (JsArg.fn cmp) =>
        if s.builtinNameConflict name then
          Except.error (JsError.nameError
            ("Scope name " ++ name ++ " is already in use."))
        else
          Except.ok { s with scopes := mapSet s.scopes name (matcherFn, some cmp) }
      | none =>
        if s.builtinNameConflict name then
          Except.error (JsError.nameError
            ("Scope name " ++ name ++ " is already in use."))
        else
          Except.ok { s with scopes := mapSet s.scopes name (matcherFn, none) }

/-! ## JS field values and `groupBy` -/

/-- JS values a record field can hold, as far as the core observes them:
primitives, arrays (foreign-key lists), and references to other records
(observed through their `id`). -/
inductive JsVal where
  | undef
  | nullV
  | boolean (b : Bool)
  | num (n : Int)
  | str (s : String)
  | arr (elems : List JsVal)
  | recordRef (id : JsVal)

/-- Structural boolean equality on embedded JS values. -/
def JsVal.beq : JsVal → JsVal → Bool
  | JsVal.undef, JsVal.undef => true
  | JsVal.nullV, JsVal.nullV => true
  | JsVal.boolean a, JsVal.boolean b => a == b
  | JsVal.num a, JsVal.num b => a == b
  | JsVal.str a, JsVal.str b => a == b
  | JsVal.arr a, JsVal.arr b => beqList a b
  | JsVal.recordRef a, JsVal.recordRef b => JsVal.beq a b
  | _, _ => false
where
  beqList : List JsVal → List JsVal → Bool
  | [], [] => true
  | x :: xs, y :: ys => JsVal.beq x y && beqList xs ys
  | _, _ => false

instance : DecidableEq JsVal := fun a b => by
  have heq : ∀ (x y : JsVal), JsVal.beq x y = true → x = y := by
    refine JsVal.beq.induct
      (fun l1 l2 => JsVal.beq.beqList l1 l2 = true → l1 = l2)
      (fun a b => JsVal.beq a b = true → a = b)
      ?_ ?_ ?_ ?_ ?_ ?_ ?_ ?_ ?_ ?_ ?_
    · intro _; rfl
    · intro _; rfl
    · intro a b h; simp [JsVal.beq] at h; rw [h]
    · intro a b h; simp [JsVal.beq] at h; rw [h]
    · intro a b h; simp [JsVal.beq] at h; rw [h]
    · intro a b ih h
      rw [ih (by simpa [JsVal.beq] using h)]
    · intro a b ih h
      rw [ih (by simpa [JsVal.beq] using h)]
    · intro t x h1 h2 h3 h4 h5 h6 h7
      intro h
      cases t <;> cases x <;>
        first
          | exact (h1 rfl rfl).elim
          | exact (h2 rfl rfl).elim
          | exact (h3 _ _ rfl rfl).elim
          | exact (h4 _ _ rfl rfl).elim
          | exact (h5 _ _ rfl rfl).elim
          | exact (h6 _ _ rfl rfl).elim
          | exact (h7 _ _ rfl rfl).elim
          | exact absurd h (by simp [JsVal.beq])
    · intro _; rfl
    · intro x xs y ys ih2 ih1 h
      have h2 : JsVal.beq x y = true ∧ JsVal.beq.beqList xs ys = true := by
        simpa [JsVal.beq.beqList] using h
      rw [ih2 h2.1, ih1 h2.2]
    · intro t x h1 h2 h
      cases t <;> cases x <;>
        first
          | exact (h1 rfl rfl).elim
          | exact (h2 _ _ _ _ rfl rfl).elim
          | exact absurd h (by simp [JsVal.beq.beqList])
  have hrefl : ∀ (x : JsVal), JsVal.beq x x = true := by
    intro a
    refine JsVal.beq.induct
      (fun l1 l2 => l1 = l2 → JsVal.beq.beqList l1 l2 = true)
      (fun a b => a = b → JsVal.beq a b = true)
      ?_ ?_ ?_ ?_ ?_ ?_ ?_ ?_ ?_ ?_ ?_ a a rfl
    · intro _; rfl
    · intro _; rfl
    · intro a b h; cases h; simp [JsVal.beq]
    · intro a b h; cases h; simp [JsVal.beq]
    · intro a b h; cases h; simp [JsVal.beq]
    · intro a b ih h; cases h; simpa [JsVal.beq] using ih rfl
    · intro a b ih h; cases h; simpa [JsVal.beq] using ih rfl
    · intro t x h1 h2 h3 h4 h5 h6 h7 h
      cases h
      cases t <;>
        first
          | exact (h1 rfl rfl).elim
          | exact (h2 rfl rfl).elim
          | exact (h3 _ _ rfl rfl).elim
          | exact (h4 _ _ rfl rfl).elim
          | exact (h5 _ _ rfl rfl).elim
          | exact (h6 _ _ rfl rfl).elim
          | exact (h7 _ _ rfl rfl).elim
    · intro _; rfl
    · intro x xs y ys ih2 ih1 h
      cases h
      simp [JsVal.beq.beqList, ih2 rfl, ih1 rfl]
    · intro t x h1 h2 h
      cases h
      cases t with
      | nil => exact (h1 rfl rfl).elim
      | cons a as => exact (h2 _ _ _ _ rfl rfl).elim
  exact decidable_of_iff (JsVal.beq a b = true)
    (Iff.intro (heq a b) (fun h => h ▸ hrefl a))

/-- JS `ToString` on a field value used as a plain-object property key.
An integer-valued JS number prints in decimal; arrays print as their
comma-joined elements with `null`/`undefined` elements blank; an object with
the default `Object.prototype.toString` prints `[object Object]`. -/
def jsKeyString : JsVal → String
  | JsVal.undef => "undefined"
  | JsVal.nullV => "null"
  | JsVal.boolean b => if b then "true" else "false"
  | JsVal.num n => toString n
  | JsVal.str s => s
  | JsVal.arr elems => jsArrString elems
  | JsVal.recordRef _ => "[object Object]"
where
  /-- `Array.prototype.toString`: elements joined by commas. -/
  jsArrString : List JsVal → String
  | [] => ""
  | [v] => jsElemString v
  | v :: rest => jsElemString v ++ "," ++ jsArrString rest
  /-- An array element stringifies like the value itself, except `null` and
  `undefined` elements which render as the empty string. -/
  jsElemString : JsVal → String
  | JsVal.undef => ""
  | JsVal.nullV => ""
  | JsVal.boolean b => if b then "true" else "false"
  | JsVal.num n => toString n
  | JsVal.str s => s
  | JsVal.arr elems => jsArrString elems
  | JsVal.recordRef _ => "[object Object]"

/-- A record's plain data: an assignment of JS values to field names. -/
abbrev RecData : Type := List (String × JsVal)

/-- JS property access `record[field]`: `undefined` when the field is
absent. -/
def recGet (r : RecData) (field : String) : JsVal :=
  (mapGet r field).getD JsVal.undef

/-- The partition key `groupBy` files a record under (lines 282-285 plus the
plain-object property-key coercion): a Record-valued field contributes its
`id`, then the value is coerced to a string. -/
def groupKeyString (v : JsVal) : String :=
  match v with
  | JsVal.recordRef id => jsKeyString id
  | v => jsKeyString v

/-- The string-keyed own property names of `Object.prototype`, every one of
whose values is truthy on a plain object (methods, and the `__proto__`
accessor which yields an object). -/
def objectPrototypeMembers : List String :=
  ["constructor", "toString", "toLocaleString", "valueOf", "hasOwnProperty",
   "isPrototypeOf", "propertyIsEnumerable", "__proto__",
   "__defineGetter__", "__defineSetter__", "__lookupGetter__",
   "__lookupSetter__"]

/-- One iteration of the `groupBy` loop (lines 281-293) over the plain-object
accumulator `res = {}`.  The `!res[keyValue]` test (line 286) consults the
prototype chain: an own key (holding a partition RecordSet, truthy) or an
inherited `Object.prototype` member (truthy) skips partition creation, and in
the inherited case `res[keyValue][$set](recordKey, value)` (line 292) then
invokes `undefined` — a TypeError.  Otherwise the partition is created
(`new RecordSet({ copyScopesFrom: this, iterable: [] })`) and the record is
inserted into it via `[$set]`. -/
def groupByStep (s : RecordSet κ RecData)
    (res : List (String × RecordSet κ RecData)) (recordKey : κ)
    (value : RecData) (key : String) :
    Except JsError (List (String × RecordSet κ RecData)) :=
  let kstr := groupKeyString (recGet value key)
  match mapGet res kstr with
  | some p => Except.ok (mapSet res kstr (p.internalSet recordKey value))
  | none =>
    if objectPrototypeMembers.contains kstr then
      Except.error (JsError.typeError "res[keyValue][$set] is not a function")
    else
      Except.ok (mapSet res kstr
        ((RecordSet.make [] (some s)).internalSet recordKey value))

/-- Method `groupBy(key)` (line 279): the insertion-ordered plain object
mapping each distinct partition key string to the RecordSet of matching
records; the loop aborts with the thrown TypeError as soon as a partition
key collides with an inherited `Object.prototype` member. -/
def RecordSet.groupBy (s : RecordSet κ RecData) (key : String) :
    Except JsError (List (String × RecordSet κ RecData)) :=
  s.entries.foldlM (fun res e => groupByStep s res e.1 e.2 key) []

/-! ## Relationship resolution (src/relationship.js)

The cardinality helpers live in `src/utils`, which is not among the sources;
they are modelled from the spec.  The join algorithms themselves
(`#getAssociatedRecords`, `#getAssociatedRecordsReverse`, `get`) are
translated from `src/relationship.js`. -/

/-- Modelled from the spec: `src/utils` (missing from the sources) supplies
`validateRelationshipType`; the cardinality is "drawn from
{to-one, to-many} x {from-one, from-many} (i.e., one-to-one, one-to-many,
many-to-one, many-to-many)". -/
inductive RelType where
  | oneToOne
  | oneToMany
  | manyToOne
  | manyToMany
  deriving DecidableEq, Repr

/-- Modelled from the spec: `isToOne` of `src/utils` (missing from the
sources) — the "to" side of the cardinality is "one". -/
def isToOne : RelType → Bool
  | RelType.oneToOne => true
  | RelType.manyToOne => true
  | _ => false

/-- Modelled from the spec: `isFromOne` of `src/utils` (missing from the
sources) — the "from" side of the cardinality is "one". -/
def isFromOne : RelType → Bool
  | RelType.oneToOne => true
  | RelType.oneToMany => true
  | _ => false

/-- Modelled from the spec: `reverseRelationship` of `src/utils` (missing
from the sources) — "the reverse side reports the mirrored cardinality". -/
def reverseRelationship : RelType → RelType
  | RelType.oneToOne => RelType.oneToOne
  | RelType.oneToMany => RelType.manyToOne
  | RelType.manyToOne => RelType.oneToMany
  | RelType.manyToMany => RelType.manyToMany

/-- A model as the relationship resolver sees it: its `name`, the name of its
key field (`model[$key].name`) and its live record store (`model.records`),
keyed by the key values and holding the records' data. -/
structure RelModel where
  name : String
  keyName : String
  records : RecordSet JsVal RecData

/-- Method `find(callbackFn)` (line 130): the value of the first entry satisfying
the callback, or `undefined`. -/
def RecordSet.findRS (s : RecordSet κ α) (f : Matcher κ α) : Option α :=
  (s.entries.find? (fun e => f e.2 e.1 s.entries)).map Prod.snd

/-- What `Relationship.get` can return: a single record, a record set, or
`undefined` (either a failed `find` or the fall-through of `get`). -/
inductive RelGetResult where
  | single (r : RecData)
  | set (s : RecordSet JsVal RecData)
  | undefR

/-- A directed relationship after construction: cardinality, the two models,
and the forward/reverse field names (`#name` on the from model, `#reverseName`
on the to model). -/
structure Relationship where
  type : RelType
  fromModel : RelModel
  toModel : RelModel
  name : String
  reverseName : String

/-- Guard `record[this.#name] || []` of the to-many forward branch (line 73): a
missing or empty foreign-key value is guarded to the empty list; a to-many
foreign-key field otherwise holds an array of keys. -/
def fkList (v : JsVal) : List JsVal :=
  match v with
  | JsVal.arr elems => elems
  | _ => []

/-- Private `#getAssociatedRecords(record)` (line 66): forward resolution. -/
def Relationship.getAssociatedRecords (rel : Relationship) (record : RecData) :
    RelGetResult :=
  if isToOne rel.type then
    match mapGet rel.toModel.records.entries (recGet record rel.name) with
    | some r => RelGetResult.single r
    | none => RelGetResult.undefR
  else
    let associationValues := fkList (recGet record rel.name)
    RelGetResult.set (rel.toModel.records.filterRS
      (fun associatedRecord _ _ =>
        associationValues.contains (recGet associatedRecord rel.toModel.keyName)))

/-- JS strict equality between a record object and a primitive key value:
an object is never `===` a primitive, so this is constantly `false`.  This is
the comparison the to-one branch of `#getAssociatedRecordsReverse` performs
on line 85 (`associatedRecord => associatedRecord === associationValue`): the
record itself, not its foreign-key field, is compared with the key value. -/
def recordStrictEqKey (_record : RecData) (_keyValue : JsVal) : Bool := false

/-- Private `#getAssociatedRecordsReverse(record)` (line 82): reverse resolution over
the from model's store. -/
def Relationship.getAssociatedRecordsReverse (rel : Relationship)
    (record : RecData) : RelGetResult :=
  let associationValue := recGet record rel.toModel.keyName
  let matcher : Matcher JsVal RecData :=
    if isToOne rel.type then
      fun associatedRecord _ _ => recordStrictEqKey associatedRecord associationValue
    else
      fun associatedRecord _ _ =>
        match recGet associatedRecord rel.name with
        | JsVal.undef => false
        | JsVal.nullV => false
        | v => (fkList v).contains associationValue
  if isFromOne rel.type then
    match rel.fromModel.records.findRS matcher with
    | some r => RelGetResult.single r
    | none => RelGetResult.undefR
  else
    RelGetResult.set (rel.fromModel.records.filterRS matcher)

/-- Method `get(modelName, property, record)` (line 102): forward when the from
model/forward name match, reverse when the to model/reverse name match,
`undefined` otherwise. -/
def Relationship.get (rel : Relationship) (modelName property : String)
    (record : RecData) : RelGetResult :=
  if modelName = rel.fromModel.name ∧ property = rel.name then
    rel.getAssociatedRecords record
  else if modelName = rel.toModel.name ∧ property = rel.reverseName then
    rel.getAssociatedRecordsReverse record
  else RelGetResult.undefR

/-! ## A heap model for derived-set independence (claim C4)

Records and record sets are JS objects: derived sets copy entry lists (which
hold record *references*) into freshly constructed `RecordSet` objects.  To
reason about what later mutations of the live store can and cannot change,
sets and records live at addresses; derivation allocates, the privileged
entry points update a set cell in place, and `Model.prototype.updateRecord`
updates a record cell in place. -/

/-- The mutable state: record-set objects (entries map record keys to record
addresses) and record objects, each at an address; `next` is the record-set
allocator. -/
structure HeapState where
  sets : List (Nat × RecordSet Nat Nat)
  recs : List (Nat × RecData)
  next : Nat

/-- Allocator soundness: every live record-set address is below `next`. -/
def HeapState.WF (st : HeapState) : Prop :=
  ∀ a ∈ entryKeys st.sets, a < st.next

/-- The derivation operations of the read algebra, with their arguments. -/
inductive DerivOp where
  | filterOp (f : Matcher Nat Nat)
  | sortOp (cmp : Comparator Nat Nat)
  | duplicateOp
  | mergeOp (others : List (RecordSet Nat Nat))
  | appendOp (records : List (Nat × Nat))
  | onlyOp (ids : List Nat)
  | exceptOp (ids : List Nat)
  | sliceOp (start stop : Int)
  | limitOp (n : Int)
  | offsetOp (n : Int)

/-- The data computed by each derivation operation (`append` inserts each
given record object, here an (id, address) pair, under its own id). -/
def applyDeriv : DerivOp → RecordSet Nat Nat → Except JsError (RecordSet Nat Nat)
  | DerivOp.filterOp f, s => Except.ok (s.filterRS f)
  | DerivOp.sortOp cmp, s => Except.ok (s.sortRS cmp)
  | DerivOp.duplicateOp, s => Except.ok s.duplicate
  | DerivOp.mergeOp others, s => s.merge others
  | DerivOp.appendOp records, s =>
    Except.ok (records.foldl (fun res r => res.internalSet r.1 r.2)
      (RecordSet.make s.entries (some s)))
  | DerivOp.onlyOp ids, s => Except.ok (s.onlyRS ids)
  | DerivOp.exceptOp ids, s => Except.ok (s.exceptRS ids)
  | DerivOp.sliceOp start stop, s => Except.ok (s.sliceRS start stop)
  | DerivOp.limitOp n, s => Except.ok (s.limit n)
  | DerivOp.offsetOp n, s => Except.ok (s.offset n)

/-- Running a derivation operation against the set at address `a`: every
operation ends in `new RecordSet(...)`, so on success the result is a freshly
allocated object, never an alias of the source. -/
def heapDerive (op : DerivOp) (a : Nat) (st : HeapState) :
    Except JsError (HeapState × Nat) :=
  match mapGet st.sets a with
  | none => Except.error (JsError.typeError "not a RecordSet")
  | some s =>
    match applyDeriv op s with
    | Except.error e => Except.error e
    | Except.ok d =>
      Except.ok
        ({ sets := mapSet st.sets st.next d, recs := st.recs,
           next := st.next + 1 }, st.next)

/-- The privileged `[$set]` applied to the live store cell at `a`. -/
def heapStoreSet (st : HeapState) (a : Nat) (id : Nat) (raddr : Nat) :
    HeapState :=
  match mapGet st.sets a with
  | none => st
  | some s => { st with sets := mapSet st.sets a (s.internalSet id raddr) }

/-- The privileged `[$delete]` applied to the live store cell at `a`. -/
def heapStoreDelete (st : HeapState) (a : Nat) (id : Nat) : HeapState :=
  match mapGet st.sets a with
  | none => st
  | some s => { st with sets := mapSet st.sets a (s.internalDelete id) }

/-- Gateway `Model.prototype.updateRecord(recordId, record)` (src/model.js lines
382-392): the existing record object is fetched from the live store and each
patch field is assigned onto it in place; the store map itself is untouched. -/
def modelUpdateRecord (st : HeapState) (a : Nat) (recordId : Nat)
    (patch : List (String × JsVal)) : Except JsError HeapState :=
  match mapGet st.sets a with
  | none => Except.error (JsError.typeError "not a RecordSet")
  | some s =>
    match mapGet s.entries recordId with
    | none =>
      Except.error (JsError.referenceError
        ("Record " ++ toString recordId ++ " does not exist."))
    | some raddr =>
      match mapGet st.recs raddr with
      | none => Except.error (JsError.typeError "dangling record reference")
      | some oldRecord =>
        let newRecord := patch.foldl (fun r fv => mapSet r fv.1 fv.2) oldRecord
        Except.ok { st with recs := mapSet st.recs raddr newRecord }

/-- The observable contents of the record set at address `a`: its keys in
order, its records' current field data read through the record heap, and its
scope table's names. -/
def observeSet (st : HeapState) (a : Nat) :
    Option (List Nat × List (Option RecData) × List String) :=
  match mapGet st.sets a with
  | none => none
  | some s =>
    some (entryKeys s.entries, s.entries.map (fun e => mapGet st.recs e.2),
      s.scopes.map Prod.fst)

/-- The derivation-independent part of a set cell's observable contents: its
keys and its scope names (field values are read from the record heap and are
covered by `observeSet`). -/
def observeKeysScopes (st : HeapState) (a : Nat) :
    Option (List Nat × List String) :=
  (mapGet st.sets a).map (fun s => (entryKeys s.entries, s.scopes.map Prod.fst))

/-! ## Concrete example data for the closed instantiations -/

/-- Record A of model X: `{ id: 1, partner: 2 }`. -/
def exRecordA : RecData := [("id", JsVal.num 1), ("partner", JsVal.num 2)]

/-- Record B of model Y: `{ id: 2 }`. -/
def exRecordB : RecData := [("id", JsVal.num 2)]

/-- Model X, holding record A. -/
def exModelX : RelModel :=
  { name := "X", keyName := "id",
    records := { entries := [(JsVal.num 1, exRecordA)], scopes := [] } }

/-- Model Y, holding record B. -/
def exModelY : RelModel :=
  { name := "Y", keyName := "id",
    records := { entries := [(JsVal.num 2, exRecordB)], scopes := [] } }

/-- A one-to-one relationship X -> Y with forward field `partner` on X and
reverse field `partnerOf` on Y. -/
def exRelXY : Relationship :=
  { type := RelType.oneToOne, fromModel := exModelX, toModel := exModelY,
    name := "partner", reverseName := "partnerOf" }

/-- Person 1 with `friends: [2]`. -/
def exFriendA : RecData := [("id", JsVal.num 1), ("friends", JsVal.arr [JsVal.num 2])]

/-- Person 2 with `friends: [1]`. -/
def exFriendB : RecData := [("id", JsVal.num 2), ("friends", JsVal.arr [JsVal.num 1])]

/-- The person model holding both friend records. -/
def exModelPerson : RelModel :=
  { name := "person", keyName := "id",
    records := { entries := [(JsVal.num 1, exFriendA), (JsVal.num 2, exFriendB)],
                 scopes := [] } }

/-- The self-referential many-to-many `friends` relationship. -/
def exRelFriends : Relationship :=
  { type := RelType.manyToMany, fromModel := exModelPerson,
    toModel := exModelPerson, name := "friends", reverseName := "friendsOf" }

/-- A live store cell value: one record keyed `1` at record address `0`. -/
def exHeapSet : RecordSet Nat Nat := { entries := [(1, 0)], scopes := [] }

/-- Initial heap: the live store at address 5, the record `{ id: 1, x: 1 }`
at record address 0. -/
def exHeap0 : HeapState :=
  { sets := [(5, exHeapSet)],
    recs := [(0, [("id", JsVal.num 1), ("x", JsVal.num 1)])], next := 6 }

/-- After `duplicate()` on the store: the derived set lives at address 6 and
shares record address 0 with the store. -/
def exHeap1 : HeapState :=
  { sets := [(5, exHeapSet), (6, exHeapSet)],
    recs := [(0, [("id", JsVal.num 1), ("x", JsVal.num 1)])], next := 7 }

/-- After `updateRecord(1, { x: 2 })` through the store: the shared record
object now reads `{ id: 1, x: 2 }`. -/
def exHeap2 : HeapState :=
  { sets := [(5, exHeapSet), (6, exHeapSet)],
    recs := [(0, [("id", JsVal.num 1), ("x", JsVal.num 2)])], next := 7 }

/-- A five-record set, keys in insertion order 1..5. -/
def exSetNat : RecordSet Nat Nat :=
  { entries := [(1, 10), (2, 20), (3, 30), (4, 40), (5, 50)], scopes := [] }

/-- A matcher keeping even values. -/
def exMatcherEven : Matcher Nat Nat := fun v _ _ => v % 2 == 0

/-- A matcher accepting everything. -/
def exMatcherTrue : Matcher Nat Nat := fun _ _ _ => true

/-- A set with a registered `evens` scope. -/
def exSetScoped : RecordSet Nat Nat :=
  { entries := [(1, 10), (2, 15), (3, 20)],
    scopes := [("evens", (exMatcherEven, none))] }

/-- The filter callback used in the concrete filter instantiation. -/
def exFilterGE15 : Matcher Nat Nat := fun v _ _ => 15 ≤ v

/-- A value comparator with the usual JS `(a, b) => a - b` shape. -/
def exCmpVal : Comparator Nat Nat := fun v1 v2 _ _ => (v1 : Int) - (v2 : Int)

/-- A set with two equal-comparing values (keys 1 and 3) around a smaller
one. -/
def exSetSort : RecordSet Nat Nat :=
  { entries := [(1, 5), (2, 3), (3, 5)], scopes := [] }

/-- Merge example: the receiver set. -/
def exMergeS : RecordSet Nat Nat := { entries := [(1, 10), (2, 20)], scopes := [] }

/-- Merge example: the argument set, disjoint keys. -/
def exMergeT : RecordSet Nat Nat := { entries := [(3, 30), (4, 40)], scopes := [] }

/-- The `record.id` projection of the append examples: the tens digit. -/
def exGetId : Nat → Nat := fun v => v / 10

/-- Two append records with the same id 2; the later one must win. -/
def exAppendRecords : List Nat := [21, 25]

/-- The empty record set over Nat keys and values. -/
def exEmptyNat : RecordSet Nat Nat := { entries := [], scopes := [] }

/-- A set whose single record has a `status` field. -/
def exFieldSet : RecordSet Nat RecData :=
  { entries := [(1, [("status", JsVal.str "open")])], scopes := [] }

/-- A matcher over record data accepting everything. -/
def exMatcherRecTrue : Matcher Nat RecData := fun _ _ _ => true

/-- groupBy example: the number 1 and the string "1" coerce to the same
partition key, and null/undefined values group under "null"/"undefined". -/
def exGroupSet : RecordSet Nat RecData :=
  { entries := [(1, [("v", JsVal.num 1)]), (2, [("v", JsVal.str "1")]),
                (3, [("v", JsVal.nullV)]), (4, [("v", JsVal.undef)])],
    scopes := [] }

/-- groupBy counterexample: a record whose value string-coerces to the
inherited `Object.prototype` member name `toString`. -/
def exProtoKeySet : RecordSet Nat RecData :=
  { entries := [(1, [("v", JsVal.str "toString")])], scopes := [] }

/-! # Theorems -/

theorem mapHas_iff_mem_entryKeys (l : List (κ × α)) (k : κ) :
    mapHas l k = true ↔ k ∈ entryKeys l := by
  simp [mapHas, entryKeys, List.any_eq_true]

theorem mapSet_of_not_has (l : List (κ × α)) (k : κ) (v : α)
    (h : mapHas l k = false) : mapSet l k v = l ++ [(k, v)] := by
  simp [mapSet, h]

theorem mapFromList_go (l acc : List (κ × α))
    (h : (entryKeys (acc ++ l)).Nodup) :
    l.foldl (fun m e => mapSet m e.1 e.2) acc = acc ++ l := by
  induction l generalizing acc with
  | nil => simp
  | cons e rest ih =>
    have hk : mapHas acc e.1 = false := by
      by_contra hc
      have : mapHas acc e.1 = true := by
        cases hv : mapHas acc e.1
        · exact absurd hv hc
        · rfl
      have hmem : e.1 ∈ entryKeys acc := (mapHas_iff_mem_entryKeys acc e.1).mp this
      have hsplit : entryKeys (acc ++ e :: rest) =
          entryKeys acc ++ e.1 :: entryKeys rest := by
        simp [entryKeys]
      rw [hsplit] at h
      have := (List.nodup_append.mp h).2.2
      exact this hmem (List.mem_cons_self _ _)
    have hstep : mapSet acc e.1 e.2 = acc ++ [(e.1, e.2)] :=
      mapSet_of_not_has acc e.1 e.2 hk
    simp only [List.foldl_cons, hstep]
    have h2 : (entryKeys ((acc ++ [(e.1, e.2)]) ++ rest)).Nodup := by
      have : (acc ++ [(e.1, e.2)]) ++ rest = acc ++ e :: rest := by simp
      rw [this]; exact h
    rw [ih (acc ++ [(e.1, e.2)]) h2]
    simp

/-- Building a JS `Map` from an entry list whose keys are pairwise distinct
reproduces exactly that entry list. -/
theorem mapFromList_eq_self (l : List (κ × α)) (h : (entryKeys l).Nodup) :
    mapFromList l = l := by
  simpa using mapFromList_go l [] (by simpa using h)

/-- Reading a JS map at a cons cell. -/
theorem mapGet_cons (e : κ × α) (rest : List (κ × α)) (k2 : κ) :
    mapGet (e :: rest) k2 = if e.1 = k2 then some e.2 else mapGet rest k2 := by
  by_cases h : e.1 = k2 <;> simp [mapGet, List.find?_cons, h]

theorem mapHas_cons (e : κ × α) (rest : List (κ × α)) (k : κ) :
    mapHas (e :: rest) k = ((e.1 = k : Bool) || mapHas rest k) := by
  simp [mapHas]

theorem mapGet_eq_none_of_not_has (l : List (κ × α)) (k : κ)
    (h : mapHas l k = false) : mapGet l k = none := by
  induction l with
  | nil => rfl
  | cons e rest ih =>
    rw [mapHas_cons, Bool.or_eq_false_iff] at h
    rw [mapGet_cons]
    have he : ¬ e.1 = k := by simpa using h.1
    simp only [he, if_false]
    exact ih h.2

theorem mapGet_append_single (l : List (κ × α)) (k : κ) (v : α) (k2 : κ) :
    mapGet (l ++ [(k, v)]) k2 =
      match mapGet l k2 with
      | some w => some w
      | none => if k = k2 then some v else none := by
  induction l with
  | nil => by_cases h : k = k2 <;> simp [mapGet, List.find?, h]
  | cons e rest ih =>
    rw [List.cons_append, mapGet_cons, mapGet_cons]
    by_cases he : e.1 = k2
    · simp [he]
    · simp only [he, if_false]
      exact ih

theorem mapGet_replace (l : List (κ × α)) (k : κ) (v : α) (k2 : κ) :
    mapGet (l.map (fun e => if e.1 = k then (k, v) else e)) k2 =
      if k2 = k then (if mapHas l k then some v else none)
      else mapGet l k2 := by
  induction l with
  | nil => simp [mapGet, mapHas]
  | cons e rest ih =>
    simp only [List.map_cons]
    rw [mapGet_cons, mapGet_cons, mapHas_cons]
    by_cases hek : e.1 = k
    · by_cases hk2 : k2 = k
      · subst hk2
        simp [hek]
      · have h1 : ¬ (k = k2) := fun hc => hk2 hc.symm
        simp [hek, h1, hk2, ih]
    · by_cases hk2 : k2 = k
      · subst hk2
        simp [hek, ih]
      · simp [hek, hk2, ih]

theorem mapGet_mapSet (l : List (κ × α)) (k : κ) (v : α) (k2 : κ) :
    mapGet (mapSet l k v) k2 = if k2 = k then some v else mapGet l k2 := by
  by_cases hhas : mapHas l k
  · rw [show mapSet l k v = l.map (fun e => if e.1 = k then (k, v) else e) by
      simp [mapSet, hhas]]
    rw [mapGet_replace]
    by_cases hk2 : k2 = k <;> simp [hk2, hhas]
  · rw [show mapSet l k v = l ++ [(k, v)] by
      simp only [mapSet]
      rw [if_neg hhas]]
    rw [mapGet_append_single]
    by_cases hk2 : k2 = k
    · subst hk2
      rw [mapGet_eq_none_of_not_has l k2 (by simpa using hhas)]
    · have h1 : ¬ (k = k2) := fun hc => hk2 hc.symm
      cases hg : mapGet l k2 <;> simp [h1, hk2]

/-! ## RecordSet foundational lemmas -/

theorem make_entries (l : List (κ × α)) (o : Option (RecordSet κ α))
    (h : (entryKeys l).Nodup) : (RecordSet.make l o).entries = l :=
  mapFromList_eq_self l h

theorem make_scopes_some (l : List (κ × α)) (s : RecordSet κ α) :
    (RecordSet.make l (some s)).scopes = s.scopes := rfl

theorem entryKeys_append (l1 l2 : List (κ × α)) :
    entryKeys (l1 ++ l2) = entryKeys l1 ++ entryKeys l2 := by
  simp [entryKeys]

theorem entryKeys_filter_nodup (l : List (κ × α)) (P : (κ × α) → Bool)
    (h : (entryKeys l).Nodup) : (entryKeys (l.filter P)).Nodup := by
  have hsub : (l.filter P).Sublist l := List.filter_sublist l
  exact h.sublist (hsub.map Prod.fst)

/-- Folding `[$set]` over entries with keys fresh for the accumulator
appends exactly the entries passing the predicate. -/
theorem foldl_internalSet_filter (P : (κ × α) → Bool) (l : List (κ × α)) :
    ∀ acc : RecordSet κ α, (entryKeys (acc.entries ++ l)).Nodup →
      (l.foldl (fun acc e => if P e then acc.internalSet e.1 e.2 else acc)
        acc).entries = acc.entries ++ l.filter P := by
  induction l with
  | nil => intro acc h; simp
  | cons e rest ih =>
    intro acc h
    have hsplit : entryKeys (acc.entries ++ e :: rest) =
        entryKeys acc.entries ++ e.1 :: entryKeys rest := by
      simp [entryKeys]
    rw [hsplit] at h
    have hfresh : e.1 ∉ entryKeys acc.entries := by
      intro hc
      exact (List.nodup_append.mp h).2.2 hc (List.mem_cons_self _ _)
    simp only [List.foldl_cons]
    by_cases hP : P e
    · have hset : (acc.internalSet e.1 e.2).entries = acc.entries ++ [e] := by
        have : mapHas acc.entries e.1 = false := by
          cases hv : mapHas acc.entries e.1
          · rfl
          · exact absurd ((mapHas_iff_mem_entryKeys _ _).mp hv) hfresh
        simp [RecordSet.internalSet, mapSet_of_not_has _ _ _ this]
      have hnodup2 : (entryKeys ((acc.internalSet e.1 e.2).entries ++ rest)).Nodup := by
        rw [hset]
        have : (acc.entries ++ [e]) ++ rest = acc.entries ++ e :: rest := by simp
        rw [this, hsplit]
        exact h
      rw [if_pos hP, ih (acc.internalSet e.1 e.2) hnodup2, hset]
      simp [hP]
    · have hnodup2 : (entryKeys (acc.entries ++ rest)).Nodup := by
        rw [entryKeys_append]
        have hsub : List.Sublist (entryKeys acc.entries ++ entryKeys rest)
            (entryKeys acc.entries ++ e.1 :: entryKeys rest) :=
          List.Sublist.append_left (List.sublist_cons_self _ _) _
        exact h.sublist hsub
      rw [if_neg hP, ih acc hnodup2]
      simp [hP]

/-- Method `filter` materialises exactly the passing entries, in order. -/
theorem filterRS_entries (s : RecordSet κ α) (f : Matcher κ α)
    (h : (entryKeys s.entries).Nodup) :
    (s.filterRS f).entries = s.entries.filter (fun e => f e.2 e.1 s.entries) := by
  have := foldl_internalSet_filter (fun e => f e.2 e.1 s.entries) s.entries
    (RecordSet.make [] (some s)) (by simpa [RecordSet.make, mapFromList] using h)
  simpa [RecordSet.filterRS, RecordSet.make, mapFromList] using this

/-- Private `#scopedWhere` on any set with duplicate-free keys returns exactly the
subset of the set accepted by the scope's matcher (sorted by the comparator
when one is present). -/
theorem scopedWhere_spec (X : RecordSet κ α)
    (hX : (entryKeys X.entries).Nodup) (name : String) (m : Matcher κ α)
    (comp : Option (Comparator κ α)) (h : mapGet X.scopes name = some (m, comp)) :
    ∃ E, X.scopedWhere name = some E ∧ E.scopes = X.scopes ∧
      ∀ e, e ∈ E.entries ↔ (e ∈ X.entries ∧ m e.2 e.1 X.entries = true) := by
  have hfilter : (entryKeys (X.entries.filter (fun e => m e.2 e.1 X.entries))).Nodup :=
    entryKeys_filter_nodup _ _ hX
  cases comp with
  | none =>
    refine ⟨RecordSet.make (X.entries.filter (fun e => m e.2 e.1 X.entries)) (some X), ?_, ?_, ?_⟩
    · simp [RecordSet.scopedWhere, h]
    · rfl
    · intro e
      rw [make_entries _ _ hfilter]
      simp [List.mem_filter]
  | some cmp =>
    have hperm : ((X.entries.filter (fun e => m e.2 e.1 X.entries)).mergeSort
        (jsSortLE cmp)).Perm (X.entries.filter (fun e => m e.2 e.1 X.entries)) :=
      List.mergeSort_perm _ _
    have hsorted : (entryKeys ((X.entries.filter (fun e => m e.2 e.1 X.entries)).mergeSort
        (jsSortLE cmp))).Nodup := by
      have := (hperm.map Prod.fst).nodup_iff
      exact this.mpr hfilter
    refine ⟨RecordSet.make ((X.entries.filter (fun e => m e.2 e.1 X.entries)).mergeSort
      (jsSortLE cmp)) (some X), ?_, ?_, ?_⟩
    · simp [RecordSet.scopedWhere, h]
    · rfl
    · intro e
      rw [make_entries _ _ hsorted]
      rw [List.mem_mergeSort]
      simp [List.mem_filter]

/-! ## Claim C2: public mutators throw and leave the set untouched -/

/-- C2: on every RecordSet, the public `set`, `delete` and `clear` throw a
usage `TypeError` pointing at the owning model's mutation API; no successor
state is ever produced (the pure embedding returns only the error, so the
set's entries and scope table are exactly as before the call). -/
theorem claim_C2_public_mutators_throw (s : RecordSet κ α) (id : κ) (v : α) :
    s.publicSet id v = Except.error (JsError.typeError
      "You cannot directly modify a RecordSet. Please use `Model.prototype.createRecord()` instead.") ∧
    s.publicDelete id = Except.error (JsError.typeError
      "You cannot directly modify a RecordSet. Please use `Model.prototype.deleteRecord()` instead.") ∧
    s.publicClear = Except.error (JsError.typeError
      "You cannot directly modify a RecordSet Please use `Model.prototype.deleteRecord()` instead.") ∧
    (∀ s2, s.publicSet id v ≠ Except.ok s2) ∧
    (∀ s2, s.publicDelete id ≠ Except.ok s2) ∧
    (∀ s2, s.publicClear ≠ Except.ok s2) := by
  refine ⟨rfl, rfl, rfl, ?_, ?_, ?_⟩ <;> intro s2 h <;> cases h

/-! ## Claim C9: limit with a non-positive count returns everything -/

theorem limitLoop_nonpos (n : Int) (hn : n ≤ 0) :
    ∀ (l acc : List (κ × α)), limitLoop n l acc = acc ++ l := by
  intro l
  induction l with
  | nil => intro acc; simp [limitLoop]
  | cons e rest ih =>
    intro acc
    have hne : ¬ (((acc ++ [e]).length : Int) = n) := by
      have : 1 ≤ ((acc ++ [e]).length : Int) := by
        simp
      omega
    simp only [limitLoop, hne, if_false]
    rw [ih (acc ++ [e])]
    simp

/-- C9: for every integer `n <= 0`, `limit(n)` keeps every entry in order
(the length check `records.length === n` runs only after a push, and a
length of at least 1 never equals a non-positive `n`); the scope table is
copied like any derivation. -/
theorem claim_C9_limit_nonpos (s : RecordSet κ α) (n : Int) (hWF : s.WF)
    (hn : n ≤ 0) :
    (s.limit n).entries = s.entries ∧ (s.limit n).scopes = s.scopes := by
  constructor
  · rw [RecordSet.limit, limitLoop_nonpos n hn s.entries []]
    simpa using make_entries s.entries (some s) hWF.1
  · rfl

/-- Witness for C9 at `n = -1` over the five-record example set. -/
theorem claim_C9_limit_nonpos_witness :
    ((-1 : Int) ≤ 0) ∧
      ((exSetNat.limit (-1)).entries = exSetNat.entries ∧
        (exSetNat.limit (-1)).scopes = exSetNat.scopes) :=
  ⟨by decide,
    claim_C9_limit_nonpos exSetNat (-1)
      ⟨by decide, by decide⟩ (by decide)⟩

/-! ## Claim C3: filter contents and scope propagation -/

theorem foldl_internalSet_scopes (P : (κ × α) → Bool) :
    ∀ (l : List (κ × α)) (acc : RecordSet κ α),
      (l.foldl (fun acc e => if P e then acc.internalSet e.1 e.2 else acc)
        acc).scopes = acc.scopes := by
  intro l
  induction l with
  | nil => intro acc; rfl
  | cons e rest ih =>
    intro acc
    simp only [List.foldl_cons]
    rw [ih]
    by_cases hP : P e <;> simp [hP, RecordSet.internalSet]

/-- Every scope of the source is carried onto the filtered set. -/
theorem filterRS_scopes (s : RecordSet κ α) (f : Matcher κ α) :
    (s.filterRS f).scopes = s.scopes :=
  foldl_internalSet_scopes _ s.entries (RecordSet.make [] (some s))

/-- C3: `filter` (non-flat) keeps exactly the entries whose callback result
is truthy, in the source's order; the derived set carries the source's scope
table; and a scope accessed on the derived set evaluates its matcher over the
derived set's own membership, returning exactly the subset of the derived set
the matcher accepts. -/
theorem claim_C3_filter_scopes (s : RecordSet κ α) (f : Matcher κ α)
    (hWF : s.WF) :
    (s.filterRS f).entries = s.entries.filter (fun e => f e.2 e.1 s.entries) ∧
    (s.filterRS f).scopes = s.scopes ∧
    (∀ name m comp, mapGet (s.filterRS f).scopes name = some (m, comp) →
      ∃ E, (s.filterRS f).scopedWhere name = some E ∧
        E.scopes = (s.filterRS f).scopes ∧
        ∀ e, e ∈ E.entries ↔
          (e ∈ (s.filterRS f).entries ∧
            m e.2 e.1 (s.filterRS f).entries = true)) := by
  have h1 := filterRS_entries s f hWF.1
  refine ⟨h1, filterRS_scopes s f, ?_⟩
  intro name m comp h
  exact scopedWhere_spec (s.filterRS f)
    (by rw [h1]; exact entryKeys_filter_nodup _ _ hWF.1) name m comp h

/-- Witness for C3: filtering the scoped example set by `value >= 15`. -/
theorem claim_C3_filter_scopes_witness :
    exSetScoped.WF ∧
    ((exSetScoped.filterRS exFilterGE15).entries =
        exSetScoped.entries.filter
          (fun e => exFilterGE15 e.2 e.1 exSetScoped.entries) ∧
      (exSetScoped.filterRS exFilterGE15).scopes = exSetScoped.scopes ∧
      (∀ name m comp,
        mapGet (exSetScoped.filterRS exFilterGE15).scopes name = some (m, comp) →
        ∃ E, (exSetScoped.filterRS exFilterGE15).scopedWhere name = some E ∧
          E.scopes = (exSetScoped.filterRS exFilterGE15).scopes ∧
          ∀ e, e ∈ E.entries ↔
            (e ∈ (exSetScoped.filterRS exFilterGE15).entries ∧
              m e.2 e.1 (exSetScoped.filterRS exFilterGE15).entries = true))) :=
  ⟨⟨by decide, by decide⟩,
    claim_C3_filter_scopes exSetScoped exFilterGE15 ⟨by decide, by decide⟩⟩

/-! ## Claim C6: sort order and stability -/

/-- C6: `sort(cmp)` (for a consistent comparator: transitive and total in the
non-positive direction, as ECMAScript requires of comparators) returns a new
RecordSet carrying the source's scopes, whose entries are a permutation of
the source ordered by `cmp`; and the sort is stable: two entries comparing
equal keep their relative insertion order. -/
theorem claim_C6_sort_stable (s : RecordSet κ α) (cmp : Comparator κ α)
    (hWF : s.WF)
    (htrans : ∀ e1 e2 e3 : κ × α,
      cmp e1.2 e2.2 e1.1 e2.1 ≤ 0 → cmp e2.2 e3.2 e2.1 e3.1 ≤ 0 →
        cmp e1.2 e3.2 e1.1 e3.1 ≤ 0)
    (htotal : ∀ e1 e2 : κ × α,
      cmp e1.2 e2.2 e1.1 e2.1 ≤ 0 ∨ cmp e2.2 e1.2 e2.1 e1.1 ≤ 0) :
    (s.sortRS cmp).scopes = s.scopes ∧
    (s.sortRS cmp).entries.Perm s.entries ∧
    (s.sortRS cmp).entries.Pairwise
      (fun e1 e2 => cmp e1.2 e2.2 e1.1 e2.1 ≤ 0) ∧
    (∀ e1 e2, List.Sublist [e1, e2] s.entries →
      cmp e1.2 e2.2 e1.1 e2.1 = 0 →
      List.Sublist [e1, e2] (s.sortRS cmp).entries) := by
  have htransB : ∀ a b c : κ × α,
      jsSortLE cmp a b → jsSortLE cmp b c → jsSortLE cmp a c := by
    intro a b c h1 h2
    simp only [jsSortLE, decide_eq_true_eq] at h1 h2 ⊢
    exact htrans a b c h1 h2
  have htotalB : ∀ a b : κ × α,
      jsSortLE cmp a b || jsSortLE cmp b a := by
    intro a b
    simp only [jsSortLE, Bool.or_eq_true, decide_eq_true_eq]
    exact htotal a b
  have hperm := List.mergeSort_perm s.entries (jsSortLE cmp)
  have hkeys : (entryKeys (s.entries.mergeSort (jsSortLE cmp))).Nodup :=
    ((hperm.map Prod.fst).nodup_iff).mpr hWF.1
  have hentries : (s.sortRS cmp).entries = s.entries.mergeSort (jsSortLE cmp) :=
    make_entries _ _ hkeys
  refine ⟨rfl, ?_, ?_, ?_⟩
  · rw [hentries]; exact hperm
  · rw [hentries]
    have hsorted := List.sorted_mergeSort htransB htotalB s.entries
    exact hsorted.imp (by
      intro a b hab
      simpa [jsSortLE, decide_eq_true_eq] using hab)
  · intro e1 e2 hsub heq
    rw [hentries]
    refine List.pair_sublist_mergeSort htransB htotalB ?_ hsub
    simp only [jsSortLE, decide_eq_true_eq]
    omega

/-- Witness for C6: the `(a, b) => a - b` comparator over a set with two
equal values. -/
theorem claim_C6_sort_stable_witness :
    exSetSort.WF ∧
    ((exSetSort.sortRS exCmpVal).scopes = exSetSort.scopes ∧
      (exSetSort.sortRS exCmpVal).entries.Perm exSetSort.entries ∧
      (exSetSort.sortRS exCmpVal).entries.Pairwise
        (fun e1 e2 => exCmpVal e1.2 e2.2 e1.1 e2.1 ≤ 0) ∧
      (∀ e1 e2, List.Sublist [e1, e2] exSetSort.entries →
        exCmpVal e1.2 e2.2 e1.1 e2.1 = 0 →
        List.Sublist [e1, e2] (exSetSort.sortRS exCmpVal).entries)) :=
  ⟨⟨by decide, by decide⟩,
    claim_C6_sort_stable exSetSort exCmpVal ⟨by decide, by decide⟩
      (by intro e1 e2 e3 h1 h2; simp only [exCmpVal] at h1 h2 ⊢; omega)
      (by intro e1 e2; simp only [exCmpVal]; omega)⟩

/-! ## Claim C7: batchIterator shape -/

theorem batchLoop_nil (n : Int) (acc : List (κ × α)) :
    batchLoop n [] acc = if acc.length ≠ 0 then [acc] else [] := rfl

theorem batchLoop_cons (n : Int) (e : κ × α) (rest acc : List (κ × α)) :
    batchLoop n (e :: rest) acc =
      if (((acc ++ [e]).length : Int) = n)
      then (acc ++ [e]) :: batchLoop n rest []
      else batchLoop n rest (acc ++ [e]) := rfl

theorem batchLoop_flatten (n : Int) :
    ∀ (l acc : List (κ × α)), (batchLoop n l acc).flatten = acc ++ l := by
  intro l
  induction l with
  | nil =>
    intro acc
    rw [batchLoop_nil]
    by_cases h : acc.length ≠ 0
    · rw [if_pos h]; simp
    · have : acc = [] := List.length_eq_zero.mp (by omega)
      rw [if_neg h, this]
      simp
  | cons e rest ih =>
    intro acc
    rw [batchLoop_cons]
    by_cases h : (((acc ++ [e]).length : Int) = n)
    · rw [if_pos h, List.flatten_cons, ih []]
      simp
    · rw [if_neg h, ih (acc ++ [e])]
      simp

theorem batchLoop_count (n : Int) (hn : 1 ≤ n) :
    ∀ (l acc : List (κ × α)), acc.length < n.toNat →
      (batchLoop n l acc).length =
        (acc.length + l.length + n.toNat - 1) / n.toNat := by
  intro l
  induction l with
  | nil =>
    intro acc hacc
    rw [batchLoop_nil]
    by_cases h : acc.length ≠ 0
    · rw [if_pos h]
      have h1 : 1 * n.toNat ≤ acc.length + ([] : List (κ × α)).length + n.toNat - 1 := by
        simp; omega
      have h2 : acc.length + ([] : List (κ × α)).length + n.toNat - 1 < (1 + 1) * n.toNat := by
        simp; omega
      rw [Nat.div_eq_of_lt_le h1 h2]
      rfl
    · rw [if_neg h]
      have h0 : acc.length = 0 := by omega
      have hlt : acc.length + ([] : List (κ × α)).length + n.toNat - 1 < n.toNat := by
        simp; omega
      rw [Nat.div_eq_of_lt hlt]
      rfl
  | cons e rest ih =>
    intro acc hacc
    rw [batchLoop_cons]
    by_cases h : (((acc ++ [e]).length : Int) = n)
    · have hlen : acc.length + 1 = n.toNat := by
        simp only [List.length_append, List.length_cons, List.length_nil] at h
        omega
      rw [if_pos h, List.length_cons, ih [] (by simp; omega)]
      have harith : acc.length + (e :: rest).length + n.toNat - 1 =
          (([] : List (κ × α)).length + rest.length + n.toNat - 1) + n.toNat := by
        simp; omega
      rw [harith, Nat.add_div_right _ (by omega)]
    · have hlt : (acc ++ [e]).length < n.toNat := by
        simp only [List.length_append, List.length_cons, List.length_nil] at h ⊢
        omega
      rw [if_neg h, ih (acc ++ [e]) hlt]
      congr 1
      simp
      omega

theorem batchLoop_sizes (n : Int) (hn : 1 ≤ n) :
    ∀ (l acc : List (κ × α)), acc.length < n.toNat →
      ∀ b ∈ batchLoop n l acc, 1 ≤ b.length ∧ b.length ≤ n.toNat := by
  intro l
  induction l with
  | nil =>
    intro acc hacc b hb
    rw [batchLoop_nil] at hb
    by_cases h : acc.length ≠ 0
    · rw [if_pos h, List.mem_singleton] at hb
      subst hb
      omega
    · rw [if_neg h] at hb
      cases hb
  | cons e rest ih =>
    intro acc hacc b hb
    rw [batchLoop_cons] at hb
    by_cases h : (((acc ++ [e]).length : Int) = n)
    · rw [if_pos h, List.mem_cons] at hb
      cases hb with
      | inl hb =>
        subst hb
        simp only [List.length_append, List.length_cons, List.length_nil] at h ⊢
        omega
      | inr hb => exact ih [] (by simp; omega) b hb
    · have hlt : (acc ++ [e]).length < n.toNat := by
        simp only [List.length_append, List.length_cons, List.length_nil] at h ⊢
        omega
      rw [if_neg h] at hb
      exact ih (acc ++ [e]) hlt b hb

theorem batchLoop_dropLast (n : Int) (hn : 1 ≤ n) :
    ∀ (l acc : List (κ × α)), acc.length < n.toNat →
      ∀ b ∈ (batchLoop n l acc).dropLast, b.length = n.toNat := by
  intro l
  induction l with
  | nil =>
    intro acc hacc b hb
    rw [batchLoop_nil] at hb
    by_cases h : acc.length ≠ 0
    · rw [if_pos h] at hb
      simp at hb
    · rw [if_neg h] at hb
      cases hb
  | cons e rest ih =>
    intro acc hacc b hb
    rw [batchLoop_cons] at hb
    by_cases h : (((acc ++ [e]).length : Int) = n)
    · rw [if_pos h] at hb
      cases hrest : batchLoop n rest ([] : List (κ × α)) with
      | nil => rw [hrest] at hb; simp at hb
      | cons x xs =>
        rw [hrest, List.dropLast_cons₂, List.mem_cons] at hb
        cases hb with
        | inl hb =>
          subst hb
          simp only [List.length_append, List.length_cons, List.length_nil] at h ⊢
          omega
        | inr hb =>
          refine ih [] (by simp; omega) b ?_
          rw [hrest]
          exact hb
    · have hlt : (acc ++ [e]).length < n.toNat := by
        simp only [List.length_append, List.length_cons, List.length_nil] at h ⊢
        omega
      rw [if_neg h] at hb
      exact ih (acc ++ [e]) hlt b hb

theorem batchLoop_sublist (n : Int) :
    ∀ (l acc : List (κ × α)), ∀ b ∈ batchLoop n l acc,
      List.Sublist b (acc ++ l) := by
  intro l
  induction l with
  | nil =>
    intro acc b hb
    rw [batchLoop_nil] at hb
    by_cases h : acc.length ≠ 0
    · rw [if_pos h, List.mem_singleton] at hb
      subst hb
      simp
    · rw [if_neg h] at hb
      cases hb
  | cons e rest ih =>
    intro acc b hb
    rw [batchLoop_cons] at hb
    have hshape : acc ++ e :: rest = (acc ++ [e]) ++ rest := by simp
    by_cases h : (((acc ++ [e]).length : Int) = n)
    · rw [if_pos h, List.mem_cons] at hb
      cases hb with
      | inl hb =>
        subst hb
        rw [hshape]
        exact List.sublist_append_left _ _
      | inr hb =>
        have := ih [] b hb
        rw [hshape]
        simp only [List.nil_append] at this
        exact this.trans (List.sublist_append_right _ _)
    · rw [if_neg h] at hb
      rw [hshape]
      exact ih (acc ++ [e]) b hb

/-- C7: for batch size `n >= 1` over `m` entries, `batchIterator` yields
exactly `ceil(m / n)` batches (none when `m = 0`); every batch but the last
has exactly `n` entries, every batch has between 1 and `n` entries, and the
concatenation of the batches reproduces the entries in insertion order. -/
theorem claim_C7_batchIterator (s : RecordSet κ α) (n : Int) (hWF : s.WF)
    (hn : 1 ≤ n) :
    (s.batchIterator n).length = (s.entries.length + n.toNat - 1) / n.toNat ∧
    (s.entries.length = 0 → s.batchIterator n = []) ∧
    (∀ b ∈ (s.batchIterator n).dropLast, b.entries.length = n.toNat) ∧
    (∀ b ∈ s.batchIterator n,
      1 ≤ b.entries.length ∧ b.entries.length ≤ n.toNat) ∧
    ((s.batchIterator n).map (fun b => b.entries)).flatten = s.entries := by
  have hbatch : ∀ b ∈ batchLoop n s.entries ([] : List (κ × α)),
      (RecordSet.make b (some s)).entries = b := by
    intro b hb
    refine make_entries b (some s) ?_
    have hsub := batchLoop_sublist n s.entries [] b hb
    simp only [List.nil_append] at hsub
    exact hWF.1.sublist (hsub.map Prod.fst)
  have hzero : ([] : List (κ × α)).length < n.toNat := by simp; omega
  refine ⟨?_, ?_, ?_, ?_, ?_⟩
  · rw [RecordSet.batchIterator, List.length_map]
    rw [batchLoop_count n hn s.entries [] hzero]
    simp
  · intro h
    have : s.entries = [] := List.length_eq_zero.mp h
    simp [RecordSet.batchIterator, this, batchLoop]
  · intro b hb
    rw [RecordSet.batchIterator, ← List.map_dropLast] at hb
    obtain ⟨b0, hb0, rfl⟩ := List.mem_map.mp hb
    have hb0mem : b0 ∈ batchLoop n s.entries ([] : List (κ × α)) :=
      (List.dropLast_sublist _).subset hb0
    rw [hbatch b0 hb0mem]
    exact batchLoop_dropLast n hn s.entries [] hzero b0 hb0
  · intro b hb
    rw [RecordSet.batchIterator] at hb
    obtain ⟨b0, hb0, rfl⟩ := List.mem_map.mp hb
    rw [hbatch b0 hb0]
    exact batchLoop_sizes n hn s.entries [] hzero b0 hb0
  · rw [RecordSet.batchIterator, List.map_map]
    have hmap : List.map
        ((fun b => RecordSet.entries b) ∘ (fun batch => RecordSet.make batch (some s)))
        (batchLoop n s.entries []) =
        List.map id (batchLoop n s.entries []) :=
      List.map_congr_left (fun b hb => hbatch b hb)
    rw [hmap, List.map_id]
    simpa using batchLoop_flatten n s.entries []

/-- Witness for C7: the five-record example set in batches of two. -/
theorem claim_C7_batchIterator_witness :
    exSetNat.WF ∧ (1 : Int) ≤ 2 ∧
    ((exSetNat.batchIterator 2).length =
        (exSetNat.entries.length + (2 : Int).toNat - 1) / (2 : Int).toNat ∧
      (exSetNat.entries.length = 0 → exSetNat.batchIterator 2 = []) ∧
      (∀ b ∈ (exSetNat.batchIterator 2).dropLast,
        b.entries.length = (2 : Int).toNat) ∧
      (∀ b ∈ exSetNat.batchIterator 2,
        1 ≤ b.entries.length ∧ b.entries.length ≤ (2 : Int).toNat) ∧
      ((exSetNat.batchIterator 2).map (fun b => b.entries)).flatten =
        exSetNat.entries) :=
  ⟨⟨by decide, by decide⟩, by decide,
    claim_C7_batchIterator exSetNat 2 ⟨by decide, by decide⟩ (by decide)⟩

/-! ## Claim C1: merge collision semantics vs append last-wins -/

theorem mergeEntries_ok [ToString κ] (l : List (κ × α)) :
    ∀ res : List (κ × α), (entryKeys (res ++ l)).Nodup →
      mergeEntries res l = Except.ok (res ++ l) := by
  induction l with
  | nil => intro res h; simp [mergeEntries]
  | cons e rest ih =>
    intro res h
    obtain ⟨id, v⟩ := e
    have hsplit : entryKeys (res ++ (id, v) :: rest) =
        entryKeys res ++ id :: entryKeys rest := by
      simp [entryKeys]
    rw [hsplit] at h
    have hfresh : id ∉ entryKeys res := by
      intro hc
      exact (List.nodup_append.mp h).2.2 hc (List.mem_cons_self _ _)
    have hhas : mapHas res id = false := by
      cases hv : mapHas res id
      · rfl
      · exact absurd ((mapHas_iff_mem_entryKeys _ _).mp hv) hfresh
    rw [show mergeEntries res ((id, v) :: rest) =
        mergeEntries (mapSet res id v) rest by simp [mergeEntries, hhas]]
    rw [mapSet_of_not_has res id v hhas]
    rw [ih (res ++ [(id, v)]) (by
      have : (res ++ [(id, v)]) ++ rest = res ++ (id, v) :: rest := by simp
      rw [this, hsplit]
      exact h)]
    simp

theorem mergeEntries_error [ToString κ] (l : List (κ × α)) :
    ∀ res : List (κ × α), (entryKeys l).Nodup →
      (∃ k, k ∈ entryKeys res ∧ k ∈ entryKeys l) →
      ∃ msg, mergeEntries res l = Except.error (JsError.duplicationError msg) := by
  induction l with
  | nil =>
    intro res _ hcol
    obtain ⟨k, _, hk⟩ := hcol
    simp [entryKeys] at hk
  | cons e rest ih =>
    intro res hl hcol
    obtain ⟨id, v⟩ := e
    by_cases hhas : mapHas res id = true
    · exact ⟨"Id " ++ toString id ++ " already exists in the record set.",
        by simp [mergeEntries, hhas]⟩
    · have hfresh : id ∉ entryKeys res := by
        intro hc
        rw [(mapHas_iff_mem_entryKeys res id).mpr hc] at hhas
        exact hhas rfl
      obtain ⟨k, hkres, hkl⟩ := hcol
      have hkrest : k ∈ entryKeys rest := by
        have : entryKeys ((id, v) :: rest) = id :: entryKeys rest := by
          simp [entryKeys]
        rw [this] at hkl
        cases hkl with
        | head => exact absurd hkres hfresh
        | tail _ hmem => exact hmem
      have hhasF : mapHas res id = false := by
        cases hv : mapHas res id
        · rfl
        · exact absurd hv hhas
      have hrestl : (entryKeys rest).Nodup := by
        have : entryKeys ((id, v) :: rest) = id :: entryKeys rest := by
          simp [entryKeys]
        rw [this] at hl
        exact hl.of_cons
      obtain ⟨msg, hmsg⟩ := ih (mapSet res id v) hrestl
        ⟨k, by
          rw [mapSet_of_not_has res id v hhasF, entryKeys_append]
          exact List.mem_append_left _ hkres, hkrest⟩
      exact ⟨msg, by simp [mergeEntries, hhasF, hmsg]⟩

theorem merge_fold_ok [ToString κ] (sets : List (RecordSet κ α)) :
    ∀ res : List (κ × α),
      (entryKeys (res ++ (sets.map (fun T => T.entries)).flatten)).Nodup →
      List.foldlM (fun res t => mergeEntries res t.entries) res sets =
        Except.ok (res ++ (sets.map (fun T => T.entries)).flatten) := by
  induction sets with
  | nil =>
    intro res h
    simp only [List.foldlM_nil, List.map_nil, List.flatten_nil, List.append_nil]
    rfl
  | cons T rest ih =>
    intro res h
    have hsub : (entryKeys (res ++ T.entries)).Nodup := by
      refine h.sublist ?_
      have : List.Sublist (res ++ T.entries)
          (res ++ (T.entries ++ ((rest.map (fun T => T.entries)).flatten))) :=
        List.Sublist.append_left (List.sublist_append_left _ _) _
      simpa [entryKeys] using this.map Prod.fst
    rw [List.foldlM_cons, mergeEntries_ok T.entries res hsub]
    have hrec := ih (res ++ T.entries) (by simpa using h)
    simpa using hrec

theorem merge_fold_error [ToString κ] (sets : List (RecordSet κ α)) :
    ∀ res : List (κ × α), (entryKeys res).Nodup →
      (∀ T ∈ sets, (entryKeys T.entries).Nodup) →
      ¬ (entryKeys (res ++ (sets.map (fun T => T.entries)).flatten)).Nodup →
      ∃ msg, List.foldlM (fun res t => mergeEntries res t.entries) res sets =
        Except.error (JsError.duplicationError msg) := by
  induction sets with
  | nil =>
    intro res hres _ hcol
    exact absurd (by simpa using hres) hcol
  | cons T rest ih =>
    intro res hres hsets hcol
    by_cases hdisj : (entryKeys (res ++ T.entries)).Nodup
    · rw [List.foldlM_cons, mergeEntries_ok T.entries res hdisj]
      have hrec := ih (res ++ T.entries) hdisj
        (fun U hU => hsets U (List.mem_cons_of_mem _ hU))
        (by
          intro hc
          exact hcol (by simpa using hc))
      simpa using hrec
    · rw [entryKeys_append] at hdisj
      rw [List.nodup_append] at hdisj
      push_neg at hdisj
      have hT : (entryKeys T.entries).Nodup := hsets T (List.mem_cons_self _ _)
      obtain ⟨k, hkres, hkT⟩ := by
        have := hdisj hres hT
        rw [List.disjoint_left] at this
        push_neg at this
        exact this
      obtain ⟨msg, hmsg⟩ := mergeEntries_error T.entries res hT ⟨k, hkres, hkT⟩
      refine ⟨msg, ?_⟩
      rw [List.foldlM_cons, hmsg]
      rfl

theorem append_fold_get (getId : α → κ) (k : κ) (records : List α) :
    ∀ base : RecordSet κ α,
      mapGet ((records.foldl (fun res r => res.internalSet (getId r) r)
        base).entries) k =
      (records.reverse.find? (fun r => decide (getId r = k))).or
        (mapGet base.entries k) := by
  induction records with
  | nil => intro base; rfl
  | cons r rest ih =>
    intro base
    rw [List.foldl_cons, ih (base.internalSet (getId r) r)]
    rw [show (r :: rest).reverse = rest.reverse ++ [r] by simp]
    rw [List.find?_append]
    cases hfind : rest.reverse.find? (fun r => decide (getId r = k)) with
    | some r2 => rfl
    | none =>
      simp only [Option.none_or, RecordSet.internalSet]
      rw [mapGet_mapSet]
      by_cases hid : getId r = k
      · have hks : k = getId r := hid.symm
        rw [if_pos hks]
        have : List.find? (fun r => decide (getId r = k)) [r] = some r := by
          simp [List.find?, hid]
        rw [this]
        rfl
      · have hks : ¬ (k = getId r) := fun hc => hid hc.symm
        rw [if_neg hks]
        have : List.find? (fun r => decide (getId r = k)) [r] = none := by
          simp [List.find?, hid]
        rw [this]
        rfl

/-- C1: merging sets with pairwise-distinct keys succeeds and concatenates
them (so the result size is the sum of the sizes, and `|S.merge(T)| = |S| +
|T|` for two sets); as soon as any key of an argument set collides with the
keys accumulated so far, merge throws a `DuplicationError` and returns no
set (the inputs, being values, are untouched); `append`, in contrast, always
succeeds with the later record winning each colliding id. -/
theorem claim_C1_merge_append [ToString κ] (S : RecordSet κ α)
    (sets : List (RecordSet κ α)) (getId : α → κ) (records : List α)
    (hS : S.WF) (hsets : ∀ T ∈ sets, T.WF) :
    (((entryKeys (S.entries ++ (sets.map (fun T => T.entries)).flatten)).Nodup →
      ∃ R, S.merge sets = Except.ok R ∧
        R.entries = S.entries ++ (sets.map (fun T => T.entries)).flatten ∧
        R.entries.length =
          S.entries.length + ((sets.map (fun T => T.entries.length)).sum) ∧
        R.scopes = S.scopes) ∧
    (¬ (entryKeys (S.entries ++ (sets.map (fun T => T.entries)).flatten)).Nodup →
      ∃ msg, S.merge sets = Except.error (JsError.duplicationError msg) ∧
        ∀ R, S.merge sets ≠ Except.ok R)) ∧
    (∀ k2 : κ,
      mapGet ((S.append getId records).entries) k2 =
        (records.reverse.find? (fun r => decide (getId r = k2))).or
          (mapGet S.entries k2)) := by
  have hfrom : mapFromList S.entries = S.entries := mapFromList_eq_self _ hS.1
  constructor
  · constructor
    · intro hnodup
      have hfold := merge_fold_ok sets S.entries hnodup
      refine ⟨RecordSet.make
        (S.entries ++ (sets.map (fun T => T.entries)).flatten) (some S),
        ?_, ?_, ?_, ?_⟩
      · rw [RecordSet.merge, hfrom, hfold]
        rfl
      · exact make_entries _ _ hnodup
      · rw [make_entries _ _ hnodup, List.length_append, List.length_flatten,
          List.map_map]
        rfl
      · rfl
    · intro hcol
      obtain ⟨msg, hmsg⟩ := merge_fold_error sets S.entries hS.1
        (fun T hT => (hsets T hT).1) hcol
      refine ⟨msg, ?_, ?_⟩
      · rw [RecordSet.merge, hfrom, hmsg]
        rfl
      · intro R hR
        rw [RecordSet.merge, hfrom, hmsg] at hR
        cases hR
  · intro k2
    have happ := append_fold_get getId k2 records
      (RecordSet.make S.entries (some S))
    rw [RecordSet.append, happ]
    rw [make_entries _ _ hS.1]

/-- Witness for C1: disjoint merge of the two example sets, and append of two
records with the same id 2 (the later one, 25, wins). -/
theorem claim_C1_merge_append_witness :
    exMergeS.WF ∧ (∀ T ∈ [exMergeT], T.WF) ∧
    ((((entryKeys (exMergeS.entries ++
          (([exMergeT].map (fun T => T.entries)).flatten))).Nodup →
        ∃ R, exMergeS.merge [exMergeT] = Except.ok R ∧
          R.entries = exMergeS.entries ++
            (([exMergeT].map (fun T => T.entries)).flatten) ∧
          R.entries.length = exMergeS.entries.length +
            (([exMergeT].map (fun T => T.entries.length)).sum) ∧
          R.scopes = exMergeS.scopes) ∧
      (¬ (entryKeys (exMergeS.entries ++
          (([exMergeT].map (fun T => T.entries)).flatten))).Nodup →
        ∃ msg, exMergeS.merge [exMergeT] =
            Except.error (JsError.duplicationError msg) ∧
          ∀ R, exMergeS.merge [exMergeT] ≠ Except.ok R)) ∧
    (∀ k2 : Nat,
      mapGet ((exMergeS.append exGetId exAppendRecords).entries) k2 =
        (exAppendRecords.reverse.find? (fun r => decide (exGetId r = k2))).or
          (mapGet exMergeS.entries k2))) := by
  refine ⟨⟨by decide, by decide⟩, ?_, ?_⟩
  · intro T hT
    rw [List.mem_singleton] at hT
    subst hT
    exact ⟨by decide, by decide⟩
  · exact claim_C1_merge_append exMergeS [exMergeT] exGetId exAppendRecords
      ⟨by decide, by decide⟩
      (by
        intro T hT
        rw [List.mem_singleton] at hT
        subst hT
        exact ⟨by decide, by decide⟩)

/-! ## Claim C10: groupBy partitions by string-coerced key values -/

theorem groupBy_go (s : RecordSet κ RecData) (key : String)
    (hWF : (entryKeys s.entries).Nodup) :
    ∀ (l processed : List (κ × RecData))
      (res : List (String × RecordSet κ RecData)),
      s.entries = processed ++ l →
      (∀ kstr P, mapGet res kstr = some P →
        P.entries = processed.filter
          (fun e => decide (groupKeyString (recGet e.2 key) = kstr)) ∧
        P.scopes = s.scopes) →
      (∀ kstr, mapGet res kstr = none →
        ∀ e ∈ processed, groupKeyString (recGet e.2 key) ≠ kstr) →
      (∀ e ∈ l, objectPrototypeMembers.contains
        (groupKeyString (recGet e.2 key)) = false) →
      ∃ out,
        l.foldlM (fun res e => groupByStep s res e.1 e.2 key) res =
          Except.ok out ∧
        (∀ kstr P, mapGet out kstr = some P →
          P.entries = (processed ++ l).filter
            (fun e => decide (groupKeyString (recGet e.2 key) = kstr)) ∧
          P.scopes = s.scopes) ∧
        (∀ kstr, mapGet out kstr = none →
          ∀ e ∈ processed ++ l, groupKeyString (recGet e.2 key) ≠ kstr) := by
  intro l
  induction l with
  | nil =>
    intro processed res hsplit hsome hnone _
    refine ⟨res, by simp only [List.foldlM_nil]; rfl, ?_, ?_⟩
    · intro kstr P hP
      simpa using hsome kstr P hP
    · intro kstr hn e he
      exact hnone kstr hn e (by simpa using he)
  | cons e rest ih =>
    intro processed res hsplit hsome hnone hproto
    have hfreshp : e.1 ∉ entryKeys processed := by
      intro hc
      rw [hsplit] at hWF
      rw [show entryKeys (processed ++ e :: rest) =
        entryKeys processed ++ e.1 :: entryKeys rest by simp [entryKeys]] at hWF
      exact (List.nodup_append.mp hWF).2.2 hc (List.mem_cons_self _ _)
    have hassoc : s.entries = (processed ++ [e]) ++ rest := by
      rw [hsplit]; simp
    obtain ⟨res2, hstep, hsome2, hnone2⟩ :
        ∃ res2, groupByStep s res e.1 e.2 key = Except.ok res2 ∧
          (∀ kstr P, mapGet res2 kstr = some P →
            P.entries = (processed ++ [e]).filter
              (fun e2 => decide (groupKeyString (recGet e2.2 key) = kstr)) ∧
            P.scopes = s.scopes) ∧
          (∀ kstr, mapGet res2 kstr = none →
            ∀ e2 ∈ processed ++ [e],
              groupKeyString (recGet e2.2 key) ≠ kstr) := by
      rw [groupByStep]
      cases hres : mapGet res (groupKeyString (recGet e.2 key)) with
      | some p =>
        refine ⟨_, rfl, ?_, ?_⟩
        · intro kstr P hP
          rw [mapGet_mapSet] at hP
          by_cases hk : kstr = groupKeyString (recGet e.2 key)
          · rw [if_pos hk] at hP
            have hPval := Option.some.inj hP
            have hpold := hsome (groupKeyString (recGet e.2 key)) p hres
            have hfreshP : mapHas p.entries e.1 = false := by
              cases hv : mapHas p.entries e.1
              · rfl
              · exfalso
                have hmem := (mapHas_iff_mem_entryKeys _ _).mp hv
                rw [hpold.1] at hmem
                have : e.1 ∈ entryKeys processed := by
                  have hsubl : List.Sublist
                      (processed.filter (fun e2 =>
                        decide (groupKeyString (recGet e2.2 key) =
                          groupKeyString (recGet e.2 key))))
                      processed := List.filter_sublist _
                  exact (hsubl.map Prod.fst).subset hmem
                exact hfreshp this
            constructor
            · rw [← hPval]
              show (p.internalSet e.1 e.2).entries = _
              rw [RecordSet.internalSet]
              show mapSet p.entries e.1 e.2 = _
              rw [mapSet_of_not_has _ _ _ hfreshP, hpold.1, List.filter_append]
              rw [hk]
              simp
            · rw [← hPval]
              exact hpold.2
          · rw [if_neg hk] at hP
            have hold := hsome kstr P hP
            refine ⟨?_, hold.2⟩
            rw [List.filter_append, hold.1]
            have hk2 : ¬ groupKeyString (recGet e.2 key) = kstr :=
              fun hc => hk hc.symm
            have : List.filter (fun e2 =>
                decide (groupKeyString (recGet e2.2 key) = kstr)) [e] = [] := by
              simp [hk2]
            rw [this]
            simp
        · intro kstr hn e2 he2
          rw [mapGet_mapSet] at hn
          have hne : kstr ≠ groupKeyString (recGet e.2 key) := by
            intro hc
            rw [if_pos hc] at hn
            cases hn
          rw [if_neg hne] at hn
          rw [List.mem_append] at he2
          cases he2 with
          | inl h2 => exact hnone kstr hn e2 h2
          | inr h2 =>
            rw [List.mem_singleton] at h2
            subst h2
            exact fun hc => hne hc.symm
      | none =>
        dsimp only
        rw [if_neg (by
          rw [hproto e (List.mem_cons_self _ _)]
          exact Bool.false_ne_true)]
        refine ⟨_, rfl, ?_, ?_⟩
        · intro kstr P hP
          rw [mapGet_mapSet] at hP
          by_cases hk : kstr = groupKeyString (recGet e.2 key)
          · rw [if_pos hk] at hP
            have hPval := Option.some.inj hP
            have hempty : processed.filter (fun e2 =>
                decide (groupKeyString (recGet e2.2 key) = kstr)) = [] := by
              rw [List.filter_eq_nil_iff]
              intro e2 he2
              simp only [decide_eq_true_eq]
              intro hc
              exact hnone (groupKeyString (recGet e.2 key)) hres e2 he2 (hk ▸ hc)
            constructor
            · rw [← hPval]
              show ((RecordSet.make [] (some s)).internalSet e.1 e.2).entries = _
              rw [List.filter_append, hempty]
              have : List.filter (fun e2 =>
                  decide (groupKeyString (recGet e2.2 key) = kstr)) [e] = [e] := by
                simp [hk.symm]
              rw [this]
              rfl
            · rw [← hPval]
              rfl
          · rw [if_neg hk] at hP
            have hold := hsome kstr P hP
            refine ⟨?_, hold.2⟩
            rw [List.filter_append, hold.1]
            have hk2 : ¬ groupKeyString (recGet e.2 key) = kstr :=
              fun hc => hk hc.symm
            have : List.filter (fun e2 =>
                decide (groupKeyString (recGet e2.2 key) = kstr)) [e] = [] := by
              simp [hk2]
            rw [this]
            simp
        · intro kstr hn e2 he2
          rw [mapGet_mapSet] at hn
          have hne : kstr ≠ groupKeyString (recGet e.2 key) := by
            intro hc
            rw [if_pos hc] at hn
            cases hn
          rw [if_neg hne] at hn
          rw [List.mem_append] at he2
          cases he2 with
          | inl h2 => exact hnone kstr hn e2 h2
          | inr h2 =>
            rw [List.mem_singleton] at h2
            subst h2
            exact fun hc => hne hc.symm
    obtain ⟨out, hout, hsome3, hnone3⟩ := ih (processed ++ [e]) res2 hassoc
      hsome2 hnone2 (fun e2 he2 => hproto e2 (List.mem_cons_of_mem _ he2))
    refine ⟨out, ?_, ?_, ?_⟩
    · rw [List.foldlM_cons, hstep]
      simpa using hout
    · intro kstr P hP
      have := hsome3 kstr P hP
      refine ⟨?_, this.2⟩
      rw [this.1]
      congr 1
      simp
    · intro kstr hn e2 he2
      refine hnone3 kstr hn e2 ?_
      simpa using he2

/-- C10 counterexample: the claim, as stated, is false at a record whose
value for the key string-coerces to `toString`, an inherited
`Object.prototype` member name: `!res[keyValue]` (set.js line 286) sees the
truthy inherited function, never creates the partition, and
`res[keyValue][$set](recordKey, value)` invokes `undefined`, so `groupBy`
throws a TypeError instead of placing the record in a partition. -/
theorem claim_C10_counterexample :
    exProtoKeySet.groupBy "v" =
      Except.error (JsError.typeError "res[keyValue][$set] is not a function") ∧
    ∀ out, exProtoKeySet.groupBy "v" ≠ Except.ok out := by
  refine ⟨rfl, ?_⟩
  intro out h
  rw [show exProtoKeySet.groupBy "v" =
    Except.error (JsError.typeError "res[keyValue][$set] is not a function")
    from rfl] at h
  cases h

/-- C10 (amended): provided no record's coerced partition key equals an
inherited `Object.prototype` member name, `groupBy(key)` succeeds and
partitions by the string coercion of each record's value for `key` (a
Record-valued field contributing its `id` first): looking a partition up
returns exactly the records whose coerced value equals that string (the
partition carrying the source's scope table), and every record — values
with the same string form such as the number 1 and the string "1" sharing
one partition, and null/undefined values filed without error under
"null"/"undefined" — lands in the partition named by its coerced value.
When a coerced key does equal an inherited member name (e.g. "toString"),
the truthy inherited member suppresses partition creation and `groupBy`
throws a TypeError. -/
theorem claim_C10_groupBy (s : RecordSet κ RecData) (key : String)
    (hWF : s.WF)
    (hproto : ∀ e ∈ s.entries, objectPrototypeMembers.contains
      (groupKeyString (recGet e.2 key)) = false) :
    ∃ out, s.groupBy key = Except.ok out ∧
      (∀ kstr P, mapGet out kstr = some P →
        P.entries = s.entries.filter
          (fun e => decide (groupKeyString (recGet e.2 key) = kstr)) ∧
        P.scopes = s.scopes) ∧
      (∀ e ∈ s.entries, ∃ P,
        mapGet out (groupKeyString (recGet e.2 key)) = some P ∧
        e ∈ P.entries) := by
  obtain ⟨out, hout, hsome, hnone⟩ := groupBy_go s key hWF.1 s.entries [] []
    (by simp)
    (by intro kstr P hP; cases hP)
    (by intro kstr _ e he; cases he)
    hproto
  rw [List.nil_append] at hsome hnone
  refine ⟨out, hout, hsome, ?_⟩
  intro e he
  cases hres : mapGet out (groupKeyString (recGet e.2 key)) with
  | none => exact absurd rfl (hnone _ hres e he)
  | some P =>
    refine ⟨P, rfl, ?_⟩
    rw [(hsome _ P hres).1, List.mem_filter]
    exact ⟨he, by simp⟩

/-- Witness for C10 (amended) over the example set holding the values 1,
"1", null and undefined — none of whose partition keys ("1", "null",
"undefined") is an inherited Object.prototype member. -/
theorem claim_C10_groupBy_witness :
    exGroupSet.WF ∧
    (∀ e ∈ exGroupSet.entries, objectPrototypeMembers.contains
      (groupKeyString (recGet e.2 "v")) = false) ∧
    (∃ out, exGroupSet.groupBy "v" = Except.ok out ∧
      (∀ kstr P, mapGet out kstr = some P →
        P.entries = exGroupSet.entries.filter
          (fun e => decide (groupKeyString (recGet e.2 "v") = kstr)) ∧
        P.scopes = exGroupSet.scopes) ∧
      (∀ e ∈ exGroupSet.entries, ∃ P,
        mapGet out (groupKeyString (recGet e.2 "v")) = some P ∧
        e ∈ P.entries)) :=
  ⟨⟨by decide, by decide⟩, by decide,
    claim_C10_groupBy exGroupSet "v" ⟨by decide, by decide⟩ (by decide)⟩

/-! ## Claim C4: derived sets against later store mutations -/

theorem mapGet_some_mem_keys (l : List (κ × α)) (k : κ) (v : α)
    (h : mapGet l k = some v) : k ∈ entryKeys l := by
  rw [mapGet] at h
  cases hf : l.find? (fun e => decide (e.1 = k)) with
  | none => rw [hf] at h; cases h
  | some e =>
    have hm := List.mem_of_find?_eq_some hf
    have hp : e.1 = k := by simpa using List.find?_some hf
    exact hp ▸ List.mem_map_of_mem Prod.fst hm

theorem observeSet_congr (st1 st2 : HeapState) (a : Nat)
    (h1 : mapGet st1.sets a = mapGet st2.sets a) (h2 : st1.recs = st2.recs) :
    observeSet st1 a = observeSet st2 a := by
  rw [observeSet, observeSet, h1, h2]

theorem observeKeysScopes_congr (st1 st2 : HeapState) (a : Nat)
    (h1 : mapGet st1.sets a = mapGet st2.sets a) :
    observeKeysScopes st1 a = observeKeysScopes st2 a := by
  rw [observeKeysScopes, observeKeysScopes, h1]

theorem modelUpdateRecord_sets (st : HeapState) (a rid : Nat)
    (patch : List (String × JsVal)) (st3 : HeapState)
    (h : modelUpdateRecord st a rid patch = Except.ok st3) :
    st3.sets = st.sets := by
  rw [modelUpdateRecord] at h
  cases h1 : mapGet st.sets a with
  | none => rw [h1] at h; cases h
  | some s =>
    rw [h1] at h
    dsimp only at h
    cases h2 : mapGet s.entries rid with
    | none => rw [h2] at h; cases h
    | some raddr =>
      rw [h2] at h
      dsimp only at h
      cases h3 : mapGet st.recs raddr with
      | none => rw [h3] at h; cases h
      | some oldRecord =>
        rw [h3] at h
        simp only [Except.ok.injEq] at h
        rw [← h]

/-- C4 (amended): a derivation allocates a fresh collection, so the
privileged `[$set]`/`[$delete]` applied afterwards to the source store cell
leave the derived set's observable contents (keys, record field values read
through the record heap, scope names) completely unchanged; an in-place
record update through the store (`Model.prototype.updateRecord`) leaves the
derived set's keys and scope table unchanged — but, records being shared by
reference, not necessarily the field values it displays. -/
theorem claim_C4_derived_independent (st : HeapState) (op : DerivOp)
    (aS : Nat) (st2 : HeapState) (aD : Nat) (hWF : st.WF)
    (h : heapDerive op aS st = Except.ok (st2, aD)) :
    aD ∉ entryKeys st.sets ∧
    (∀ id raddr,
      observeSet (heapStoreSet st2 aS id raddr) aD = observeSet st2 aD) ∧
    (∀ id, observeSet (heapStoreDelete st2 aS id) aD = observeSet st2 aD) ∧
    (∀ rid patch st3, modelUpdateRecord st2 aS rid patch = Except.ok st3 →
      observeKeysScopes st3 aD = observeKeysScopes st2 aD) := by
  rw [heapDerive] at h
  cases hS : mapGet st.sets aS with
  | none => rw [hS] at h; cases h
  | some s =>
    rw [hS] at h
    dsimp only at h
    cases happly : applyDeriv op s with
    | error e => rw [happly] at h; cases h
    | ok d =>
      rw [happly] at h
      simp only [Except.ok.injEq, Prod.mk.injEq] at h
      obtain ⟨hst2, haD⟩ := h
      have hfresh : st.next ∉ entryKeys st.sets := by
        intro hc
        exact absurd (hWF st.next hc) (by omega)
      have hmemS : aS ∈ entryKeys st.sets := mapGet_some_mem_keys _ _ _ hS
      have hne : aS ≠ st.next := fun hc => hfresh (hc ▸ hmemS)
      have hgetD : mapGet st2.sets aD = some d := by
        rw [← hst2, ← haD]
        simp [mapGet_mapSet]
      have hgetS : mapGet st2.sets aS = some s := by
        rw [← hst2]
        simp only [mapGet_mapSet]
        rw [if_neg hne, hS]
      refine ⟨?_, ?_, ?_, ?_⟩
      · rw [← haD]; exact hfresh
      · intro id raddr
        refine observeSet_congr _ _ _ ?_ ?_
        · rw [heapStoreSet, hgetS]
          simp only [mapGet_mapSet]
          rw [if_neg (by rw [← haD]; exact fun hc => hne hc.symm)]
        · rw [heapStoreSet, hgetS]
      · intro id
        refine observeSet_congr _ _ _ ?_ ?_
        · rw [heapStoreDelete, hgetS]
          simp only [mapGet_mapSet]
          rw [if_neg (by rw [← haD]; exact fun hc => hne hc.symm)]
        · rw [heapStoreDelete, hgetS]
      · intro rid patch st3 hupd
        refine observeKeysScopes_congr _ _ _ ?_
        rw [modelUpdateRecord_sets st2 aS rid patch st3 hupd]

/-- Counterexample for C4 as stated: after `duplicate()`, an in-place record
update through the live store changes the field values observed through the
previously derived set (record objects are shared by reference, so a derived
set is not a full snapshot of field values). -/
theorem claim_C4_counterexample :
    heapDerive DerivOp.duplicateOp 5 exHeap0 = Except.ok (exHeap1, 6) ∧
    modelUpdateRecord exHeap1 5 1 [("x", JsVal.num 2)] = Except.ok exHeap2 ∧
    observeSet exHeap2 6 ≠ observeSet exHeap1 6 :=
  ⟨rfl, rfl, by
    intro hc
    have h1 : observeSet exHeap1 6 =
        some ([1], [some [("id", JsVal.num 1), ("x", JsVal.num 1)]], []) := rfl
    have h2 : observeSet exHeap2 6 =
        some ([1], [some [("id", JsVal.num 1), ("x", JsVal.num 2)]], []) := rfl
    rw [h1, h2] at hc
    simp at hc⟩

/-- Witness for C4 (amended) at the concrete duplicate-then-update heap. -/
theorem claim_C4_derived_independent_witness :
    exHeap0.WF ∧
    (6 ∉ entryKeys exHeap0.sets ∧
      (∀ id raddr,
        observeSet (heapStoreSet exHeap1 5 id raddr) 6 = observeSet exHeap1 6) ∧
      (∀ id, observeSet (heapStoreDelete exHeap1 5 id) 6 = observeSet exHeap1 6) ∧
      (∀ rid patch st3, modelUpdateRecord exHeap1 5 rid patch = Except.ok st3 →
        observeKeysScopes st3 6 = observeKeysScopes exHeap1 6)) :=
  ⟨by
    intro a ha
    rw [show entryKeys exHeap0.sets = [5] from rfl, List.mem_singleton] at ha
    subst ha
    decide,
    claim_C4_derived_independent exHeap0 DerivOp.duplicateOp 5 exHeap1 6
      (by
        intro a ha
        rw [show entryKeys exHeap0.sets = [5] from rfl,
          List.mem_singleton] at ha
        subst ha
        decide) rfl⟩

/-! ## Claim C5: reverse relationship resolution -/

/-- C5 (code bug): the reverse branch for a to-one cardinality matches with
`associatedRecord === associationValue` (src/relationship.js line 85),
comparing the candidate record object itself — not its foreign-key field —
with the key value, which is never true, so the resolution returns
`undefined` even when a source record's foreign key equals the given
record's key.  Concretely, under the one-to-one X -> Y relationship with
forward field `partner`: X holds A = {id: 1, partner: 2}, B = {id: 2} is a
Y-record, A's foreign key equals B's key, yet resolving Y's reverse field
`partnerOf` on B yields `undefined`.  The to-many reverse branch, which does
read the foreign-key field (line 87), returns the expected records: the
self-referential many-to-many `friends` round-trip resolves person 2's
`friendsOf` to the set holding person 1. -/
theorem claim_C5_reverse_resolution :
    exRelXY.get "Y" "partnerOf" exRecordB = RelGetResult.undefR ∧
    recGet exRecordA "partner" = recGet exRecordB "id" ∧
    mapGet exModelX.records.entries (JsVal.num 1) = some exRecordA ∧
    exRelFriends.get "person" "friendsOf" exFriendB =
      RelGetResult.set { entries := [(JsVal.num 1, exFriendA)], scopes := [] } :=
  ⟨rfl, rfl, rfl, rfl⟩

/-! ## Claim C8: addScope validation -/

/-- C8 counterexample: the claim says a scope named after an existing record
field, or after any built-in collection member, is rejected — but
`[$addScope]` has no field check at all (a scope named `status` registers
fine on a set whose records carry a `status` field), and the inherited
`size` getter evaluates to `0` (falsy) on an empty set while not being an
own property of `RecordSet.prototype`, so `addScope("size", ...)` on an
empty set also succeeds. -/
theorem claim_C8_counterexample :
    (∃ s2, exFieldSet.addScope "status" (JsArg.fn exMatcherRecTrue) none =
      Except.ok s2) ∧
    (∃ s2, exEmptyNat.addScope "size" (JsArg.fn exMatcherTrue) none =
      Except.ok s2) :=
  ⟨⟨_, rfl⟩, ⟨_, rfl⟩⟩

/-- C8 (amended): `[$addScope]` fails with a TypeError when the matcher is
not callable; with a DuplicationError when the name is an already-registered
scope; with a TypeError when a (truthy) comparator is not callable; and with
a NameError when the name is a truthy member of the set (an inherited
built-in other than `size` on an empty set, or a scope accessor) or an own
property of `RecordSet.prototype`.  There is no check against record field
names.  Otherwise the scope is registered; on every failure only the error
is returned, so the scope table and accessors are unchanged. -/
theorem claim_C8_addScope_amended (s : RecordSet κ α) (name : String)
    (m : Matcher κ α) (sortFn : Option (JsArg (Comparator κ α))) :
    (s.addScope name JsArg.notAFunction sortFn = Except.error
      (JsError.typeError ("Scope " ++ name ++ " is not a function."))) ∧
    ((mapGet s.scopes name).isSome = true →
      s.addScope name (JsArg.fn m) sortFn = Except.error
        (JsError.duplicationError ("Scope " ++ name ++ " already exists."))) ∧
    ((mapGet s.scopes name).isSome = false →
      sortFn = some JsArg.notAFunction →
      s.addScope name (JsArg.fn m) sortFn = Except.error
        (JsError.typeError
          ("Scope comparator " ++ name ++ " is not a function."))) ∧
    ((mapGet s.scopes name).isSome = false →
      sortFn ≠ some JsArg.notAFunction →
      s.builtinNameConflict name = true →
      s.addScope name (JsArg.fn m) sortFn = Except.error
        (JsError.nameError ("Scope name " ++ name ++ " is already in use."))) ∧
    ((mapGet s.scopes name).isSome = false →
      sortFn ≠ some JsArg.notAFunction →
      s.builtinNameConflict name = false →
      ∃ cmpOpt, s.addScope name (JsArg.fn m) sortFn =
        Except.ok { s with scopes := mapSet s.scopes name (m, cmpOpt) }) := by
  refine ⟨rfl, ?_, ?_, ?_, ?_⟩
  · intro hdup
    simp only [RecordSet.addScope, if_pos hdup]
  · intro hdup hsort
    subst hsort
    simp only [RecordSet.addScope]
    rw [if_neg (by rw [hdup]; exact Bool.false_ne_true)]
  · intro hdup hsort hconf
    simp only [RecordSet.addScope]
    rw [if_neg (by rw [hdup]; exact Bool.false_ne_true)]
    cases sortFn with
    | none => rw [if_pos hconf]
    | some arg =>
      cases arg with
      | notAFunction => exact absurd rfl hsort
      | fn cmp =>
        dsimp only
        rw [if_pos hconf]
  · intro hdup hsort hconf
    simp only [RecordSet.addScope]
    rw [if_neg (by rw [hdup]; exact Bool.false_ne_true)]
    cases sortFn with
    | none =>
      exact ⟨none, by rw [if_neg (by rw [hconf]; exact Bool.false_ne_true)]⟩
    | some arg =>
      cases arg with
      | notAFunction => exact absurd rfl hsort
      | fn cmp =>
        exact ⟨some cmp, by
          dsimp only
          rw [if_neg (by rw [hconf]; exact Bool.false_ne_true)]⟩

/-- Witness for C8 (amended): registering a scope named `get` (a truthy
inherited Map member) on the empty set fails with the NameError. -/
theorem claim_C8_addScope_amended_witness :
    (mapGet exEmptyNat.scopes "get").isSome = false ∧
    exEmptyNat.builtinNameConflict "get" = true ∧
    exEmptyNat.addScope "get" (JsArg.fn exMatcherTrue) none = Except.error
      (JsError.nameError "Scope name get is already in use.") :=
  ⟨rfl, by decide,
    (claim_C8_addScope_amended exEmptyNat "get" exMatcherTrue none).2.2.2.1
      rfl (fun h => Option.noConfusion h) (by decide)⟩

end Jsiqle
